/-
Verification of the pytorch-widedeep model-construction code.

The tensor library is shallowly embedded: a 1-D tensor is a list of
rationals, a 2-D tensor a list of rows, a 3-D tensor a list of matrices.
Layers are embedded in evaluation (inference) mode: dropout is the
identity and batch normalization is the per-feature affine map obtained
from frozen statistics.  Irrational scalar primitives (exp used inside
softmax, tanh, the reciprocal square root used by attention scaling) are
abstracted as function or scalar parameters that the theorems quantify
over.  Random weight initialization is abstracted as an initializer
record of functions producing the entries of every weight tensor.
Failures raised by the Python runtime (KeyError, IndexError, failures of
torch.cat on empty lists, unbound locals) are modelled by Option;
failures raised eagerly at construction time are modelled by Except over
an explicit error type mirroring the Python exception classes.
-/
import Mathlib

abbrev Vec := List ℚ
abbrev Mat := List Vec
abbrev Mat3 := List Mat

/-- Shape of a 2-D tensor: row count and uniform row width. -/
abbrev Mat.hasShape (m : Mat) (n d : ℕ) : Prop :=
  m.length = n ∧ ∀ r ∈ m, r.length = d

/-- Shape of a 3-D tensor. -/
abbrev Mat3.hasShape (t : Mat3) (b s d : ℕ) : Prop :=
  t.length = b ∧ ∀ m ∈ t, Mat.hasShape m s d

def zeroVec (d : ℕ) : Vec := List.replicate d 0

def addVec (a b : Vec) : Vec := List.zipWith (· + ·) a b

def dot (w x : Vec) : ℚ := (List.zipWith (· * ·) w x).sum

/-- Concatenation along dimension 1 of two 2-D tensors (torch.cat dim=1). -/
def zipCat (A B : Mat) : Mat := List.zipWith (· ++ ·) A B

/-- torch.cat of a list of 2-D tensors along dimension 1; torch.cat raises
on an empty list of tensors. -/
def catDim1 : List Mat → Option Mat
  | [] => none
  | m :: rest => some (rest.foldl zipCat m)

/-- Propagate failure through a list of optional results. -/
def seqOpt {α : Type} : List (Option α) → Option (List α)
  | [] => some []
  | none :: _ => none
  | some a :: rest => (seqOpt rest).map (fun l => a :: l)

/-- Lookup in an association list keyed by strings (Python dict access;
a missing key raises KeyError, modelled as none). -/
def assocFind {α : Type} : List (String × α) → String → Option α
  | [], _ => none
  | p :: rest, k => if p.1 = k then some p.2 else assocFind rest k

/-- Python exceptions raised eagerly at construction time. -/
inductive PyError where
  | valueError (msg : String)
  | assertionError (msg : String)
  | zeroDivisionError
deriving DecidableEq, Repr

/-- Abstract weight initializer: entries for weight matrices, bias vectors
and the frozen affine parameters of normalization layers. -/
structure Init where
  w : ℕ → ℕ → ℚ
  b : ℕ → ℚ
  s : ℕ → ℚ
  t : ℕ → ℚ

def mkMat (r c : ℕ) (f : ℕ → ℕ → ℚ) : Mat :=
  (List.range r).map (fun i => (List.range c).map (f i))

/-- nn.Linear: weight of shape (out, in) and optional bias of length out. -/
structure Linear where
  weight : Mat
  bias : Option Vec

def mkLinear (inp out : ℕ) (useBias : Bool) (θ : Init) : Linear :=
  { weight := mkMat out inp θ.w
    bias := if useBias then some ((List.range out).map θ.b) else none }

def Linear.forward1 (l : Linear) (x : Vec) : Vec :=
  let y := l.weight.map (fun w => dot w x)
  match l.bias with
  | some b => List.zipWith (· + ·) y b
  | none => y

def Linear.forward (l : Linear) (X : Mat) : Mat := X.map l.forward1

/-- nn.BatchNorm1d in evaluation mode: the per-feature affine map with
scale = gamma / sqrt(var + eps) and shift = beta - mean * scale folded
into two frozen vectors. -/
structure BatchNorm1d where
  scale : Vec
  shift : Vec

def mkBatchNorm (d : ℕ) (θ : Init) : BatchNorm1d :=
  { scale := (List.range d).map θ.s
    shift := (List.range d).map θ.t }

def BatchNorm1d.forward1 (bn : BatchNorm1d) (x : Vec) : Vec :=
  List.zipWith (· + ·) (List.zipWith (· * ·) x bn.scale) bn.shift

/-- nn.Dropout in evaluation mode is the identity. -/
def dropoutEval {α : Type} (x : α) : α := x

/-- nn.LeakyReLU with the default negative slope 0.01. -/
def leakyReluQ (x : ℚ) : ℚ := if x < 0 then (1 / 100) * x else x

/-- Softmax with the exponential abstracted as a function parameter. -/
def softmaxWith (expF : ℚ → ℚ) (v : Vec) : Vec :=
  let e := v.map expF
  e.map (fun x => x / e.sum)

/-- Truncation toward zero performed by Tensor.long(). -/
def longOf (q : ℚ) : ℤ := q.num / (q.den : ℤ)

/-- nn.Embedding built with padding_idx = 0: row 0 is the zero vector. -/
structure Embedding where
  weight : Mat

def mkEmbeddingPad0 (numEmb dim : ℕ) (θ : Init) : Embedding :=
  { weight := (List.range numEmb).map
      (fun i => if i = 0 then zeroVec dim else (List.range dim).map (θ.w i)) }

/-- Index lookup in an embedding table; a negative or out-of-range index
raises in torch, modelled as none. -/
def Embedding.lookup (e : Embedding) (i : ℤ) : Option Vec :=
  if 0 ≤ i then e.weight.get? i.toNat else none

/-- BasicBlock from tab_resnet.py: two linear/batch-norm stages with
optional dropout after the first, plus a residual connection that is
optionally resized. -/
structure BasicBlock where
  lin1 : Linear
  bn1 : BatchNorm1d
  hasDropout : Bool
  lin2 : Linear
  bn2 : BatchNorm1d
  resize : Option (Linear × BatchNorm1d)

def mkBasicBlock (inp out : ℕ) (dropout : ℚ)
    (resize : Option (Linear × BatchNorm1d)) (θ : Init) : BasicBlock :=
  { lin1 := mkLinear inp out true θ
    bn1 := mkBatchNorm out θ
    hasDropout := decide (0 < dropout)
    lin2 := mkLinear out out true θ
    bn2 := mkBatchNorm out θ
    resize := resize }

def BasicBlock.forward1 (blk : BasicBlock) (x : Vec) : Vec :=
  let out1 := blk.lin1.forward1 x
  let out2 := blk.bn1.forward1 out1
  let out3 := out2.map leakyReluQ
  let out4 := if blk.hasDropout then dropoutEval out3 else out3
  let out5 := blk.lin2.forward1 out4
  let out6 := blk.bn2.forward1 out5
  let identity :=
    match blk.resize with
    | some rs => rs.2.forward1 (rs.1.forward1 x)
    | none => x
  (List.zipWith (· + ·) out6 identity).map leakyReluQ

/-- Transformed path of a BasicBlock (the two linear/batch-norm stages
with the optional internal dropout). -/
def BasicBlock.transform (blk : BasicBlock) (x : Vec) : Vec :=
  let out3 := (blk.bn1.forward1 (blk.lin1.forward1 x)).map leakyReluQ
  blk.bn2.forward1
    (blk.lin2.forward1 (if blk.hasDropout then dropoutEval out3 else out3))

/-- Identity path of a BasicBlock: the input itself, or the resized input
when a resize module was supplied. -/
def BasicBlock.identityPath (blk : BasicBlock) (x : Vec) : Vec :=
  match blk.resize with
  | some rs => rs.2.forward1 (rs.1.forward1 x)
  | none => x

/-- DenseResnet from tab_resnet.py: an optional initial linear/batch-norm
resize (when input_dim differs from the first block dimension) followed
by one BasicBlock per consecutive pair of the dimension list. -/
structure DenseResnet where
  head : Option (Linear × BatchNorm1d)
  blocks : List BasicBlock

def buildBlocks (dropout : ℚ) (θ : Init) : List ℕ → List BasicBlock
  | d0 :: d1 :: rest =>
    mkBasicBlock d0 d1 dropout
      (if d0 ≠ d1 then some (mkLinear d0 d1 true θ, mkBatchNorm d1 θ) else none) θ
    :: buildBlocks dropout θ (d1 :: rest)
  | _ => []

/-- Constructing DenseResnet evaluates blocks_dims[0], which raises
IndexError on an empty dimension list; no other validation happens. -/
def mkDenseResnet (input_dim : ℕ) (blocks_dims : List ℕ) (dropout : ℚ)
    (θ : Init) : Option DenseResnet :=
  match blocks_dims with
  | [] => none
  | d0 :: _ =>
    some { head := if input_dim ≠ d0
             then some (mkLinear input_dim d0 true θ, mkBatchNorm d0 θ)
             else none
           blocks := buildBlocks dropout θ blocks_dims }

def DenseResnet.forward (dr : DenseResnet) (X : Mat) : Mat :=
  let X0 :=
    match dr.head with
    | some hd => (X.map hd.1.forward1).map hd.2.forward1
    | none => X
  dr.blocks.foldl (fun A blk => A.map blk.forward1) X0

/-- Modelled from the spec: the MLP class (pytorch_widedeep.models.tab_mlp
and pytorch_widedeep.models.tabular.mlp._layers, files not among the
sources) receives a "List with the number of neurons per dense layer" and
stacks one dense (linear) layer per consecutive pair of that list, each
followed by the configured activation. -/
structure MLP where
  layers : List Linear
  act : ℚ → ℚ

def buildMLPLayers (θ : Init) : List ℕ → List Linear
  | d0 :: d1 :: rest => mkLinear d0 d1 true θ :: buildMLPLayers θ (d1 :: rest)
  | _ => []

def mkMLP (dims : List ℕ) (act : ℚ → ℚ) (θ : Init) : MLP :=
  { layers := buildMLPLayers θ dims, act := act }

def MLP.forward (m : MLP) (X : Mat) : Mat :=
  m.layers.foldl (fun A l => (A.map l.forward1).map (fun v => v.map m.act)) X

/-- Configuration of TabResnet (the constructor arguments that the claims
quantify over; embed_input entries are (column name, unique values,
embedding dimension)). -/
structure TabResnetCfg where
  embed_input : List (String × ℕ × ℕ)
  column_idx : List (String × ℕ)
  blocks_dims : List ℕ
  blocks_dropout : ℚ
  mlp_hidden_dims : Option (List ℕ)
  mlp_act : ℚ → ℚ
  continuous_cols : Option (List String)
  batchnorm_cont : Bool
  concat_cont_first : Bool

/-- The layers held by a constructed TabResnet.  The embedding ModuleDict
keys are "emb_layer_" + col both when stored and when read, so the
association list is keyed by the column name directly. -/
structure TabResnetModel where
  embed_input : List (String × ℕ × ℕ)
  column_idx : List (String × ℕ)
  embed_layers : List (String × Embedding)
  continuous_cols : Option (List String)
  batchnorm_cont : Bool
  concat_cont_first : Bool
  norm : Option BatchNorm1d
  tab_resnet : DenseResnet
  tab_resnet_mlp : Option MLP
  output_dim : ℕ

def contLen : Option (List String) → ℕ
  | some l => l.length
  | none => 0

/-- Body of TabResnet.__init__ after the blocks_dims length check. -/
def TabResnet.build (cfg : TabResnetCfg) (θ : Init) : TabResnetModel :=
  let emb_inp_dim := (cfg.embed_input.map (fun e => e.2.2)).sum
  let cont_inp_dim := contLen cfg.continuous_cols
  let dense_resnet_input_dim :=
    if cfg.concat_cont_first then emb_inp_dim + cont_inp_dim else emb_inp_dim
  let base_output_dim :=
    if cfg.concat_cont_first then cfg.blocks_dims.getLastD 0
    else cont_inp_dim + cfg.blocks_dims.getLastD 0
  let mlp :=
    match cfg.mlp_hidden_dims with
    | some hidden =>
      let mlp_input_dim :=
        if cfg.concat_cont_first then cfg.blocks_dims.getLastD 0
        else cont_inp_dim + cfg.blocks_dims.getLastD 0
      some (mkMLP (mlp_input_dim :: hidden) cfg.mlp_act θ)
    | none => none
  { embed_input := cfg.embed_input
    column_idx := cfg.column_idx
    embed_layers :=
      cfg.embed_input.map (fun e => (e.1, mkEmbeddingPad0 (e.2.1 + 1) e.2.2 θ))
    continuous_cols := cfg.continuous_cols
    batchnorm_cont := cfg.batchnorm_cont
    concat_cont_first := cfg.concat_cont_first
    norm :=
      match cfg.continuous_cols with
      | some l => if cfg.batchnorm_cont then some (mkBatchNorm l.length θ) else none
      | none => none
    tab_resnet :=
      (mkDenseResnet dense_resnet_input_dim cfg.blocks_dims cfg.blocks_dropout θ).getD
        { head := none, blocks := [] }
    tab_resnet_mlp := mlp
    output_dim :=
      match cfg.mlp_hidden_dims with
      | some hidden =>
        ((if cfg.concat_cont_first then cfg.blocks_dims.getLastD 0
          else cont_inp_dim + cfg.blocks_dims.getLastD 0) :: hidden).getLastD 0
      | none => base_output_dim }

/-- TabResnet.__init__: the blocks_dims length check runs before any layer
is built. -/
def TabResnet.init (cfg : TabResnetCfg) (θ : Init) :
    Except PyError TabResnetModel :=
  if cfg.blocks_dims.length < 2 then
    .error (.valueError "blocks must contain at least two elements")
  else
    .ok (TabResnet.build cfg θ)

/-- TabResnet.forward: embedding lookups on the categorical columns,
concatenation with the (optionally normalized) continuous columns either
before or after the dense resnet, and an optional final MLP. -/
def TabResnetModel.forward (m : TabResnetModel) (X : Mat) : Option Mat :=
  (seqOpt (m.embed_input.map (fun e =>
    (assocFind m.column_idx e.1).bind (fun idx =>
      (assocFind m.embed_layers e.1).bind (fun emb =>
        seqOpt (X.map (fun (row : Vec) =>
          (row.get? idx).bind (fun q => emb.lookup (longOf q))))))))).bind
  (fun embeds =>
  (catDim1 embeds).bind (fun x0 =>
    let x := dropoutEval x0
    (match m.continuous_cols with
      | some cols =>
        (seqOpt (cols.map (assocFind m.column_idx))).bind (fun cont_idx =>
        (seqOpt (X.map (fun (row : Vec) =>
            seqOpt (cont_idx.map (fun i => row.get? i))))).bind (fun xc0 =>
          let x_cont :=
            if m.batchnorm_cont then
              match m.norm with
              | some bn => xc0.map bn.forward1
              | none => xc0
            else xc0
          if m.concat_cont_first then
            some (m.tab_resnet.forward (zipCat x x_cont))
          else
            some (zipCat (m.tab_resnet.forward x) x_cont)))
      | none => some (m.tab_resnet.forward x)).bind (fun out =>
    match m.tab_resnet_mlp with
    | some mlp => some (mlp.forward out)
    | none => some out)))

/-- ContextAttention from _attention_layers.py. -/
structure ContextAttention where
  inp_proj : Linear
  context : Linear
  sum_along_seq : Bool
  tanhF : ℚ → ℚ
  expF : ℚ → ℚ

def mkContextAttention (input_dim : ℕ) (sum_along_seq : Bool)
    (tanhF expF : ℚ → ℚ) (θ : Init) : ContextAttention :=
  { inp_proj := mkLinear input_dim input_dim true θ
    context := mkLinear input_dim 1 false θ
    sum_along_seq := sum_along_seq
    tanhF := tanhF
    expF := expF }

def ContextAttention.inputDim (ca : ContextAttention) : ℕ :=
  ca.inp_proj.weight.length

/-- The elementwise product attn_weights * X of the broadcast attention
weights (softmax over the sequence dimension of the context scores) with
the input. -/
def ContextAttention.weighted (ca : ContextAttention) (X : Mat3) : Mat3 :=
  X.map (fun xb =>
    let scores := xb.map (fun v => (ca.inp_proj.forward1 v).map ca.tanhF)
    let logits := scores.map (fun v => ca.context.forward1 v)
    let attn_weights := softmaxWith ca.expF (logits.map (fun v => v.headD 0))
    let attn_weights := dropoutEval attn_weights
    List.zipWith (fun w row => row.map (fun a => w * a)) attn_weights xb)

/-- Result rank of ContextAttention.forward depends on sum_along_seq. -/
inductive TOut where
  | mat2 (m : Mat)
  | mat3 (t : Mat3)

def sumRows (d : ℕ) (m : Mat) : Vec := m.foldl addVec (zeroVec d)

def ContextAttention.forward (ca : ContextAttention) (X : Mat3) : TOut :=
  if ca.sum_along_seq then
    .mat2 ((ca.weighted X).map (sumRows ca.inputDim))
  else
    .mat3 (ca.weighted X)

/-- QueryKeySelfAttention from _attention_layers.py, with the exponential
of the softmax and the scalar 1 / sqrt(head_dim) abstracted. -/
structure QKSelfAttention where
  head_dim : ℕ
  n_heads : ℕ
  qk_proj : Linear
  expF : ℚ → ℚ
  invSqrtHeadDim : ℚ

def buildQK (input_dim : ℕ) (use_bias : Bool) (n_heads : ℕ)
    (expF : ℚ → ℚ) (invSqrtHD : ℚ) (θ : Init) : QKSelfAttention :=
  { head_dim := input_dim / n_heads
    n_heads := n_heads
    qk_proj := mkLinear input_dim (input_dim * 2) use_bias θ
    expF := expF
    invSqrtHeadDim := invSqrtHD }

/-- QueryKeySelfAttention.__init__: the divisibility assertion.  In Python
the expression input_dim % n_heads raises ZeroDivisionError when n_heads
is zero, before the assert can fail. -/
def mkQKSelfAttention (input_dim : ℕ) (use_bias : Bool) (n_heads : ℕ)
    (expF : ℚ → ℚ) (invSqrtHD : ℚ) (θ : Init) :
    Except PyError QKSelfAttention :=
  if n_heads = 0 then .error .zeroDivisionError
  else if input_dim % n_heads ≠ 0 then
    .error (.assertionError "input_dim must be divisible by n_heads")
  else .ok (buildQK input_dim use_bias n_heads expF invSqrtHD θ)

/-- einops.rearrange of a 2-D batch element "m (h d) -> h m d". -/
def splitHeads (h : ℕ) (xb : Mat) : Mat3 :=
  (List.range h).map (fun hi =>
    xb.map (fun v => ((v.drop (hi * (v.length / h))).take (v.length / h))))

/-- einsum "s l, l d -> s d" for one batch element and head, with the
width d of the result taken from the tensor metadata. -/
def einsumWL (d : ℕ) (w xv : Mat) : Mat :=
  w.map (fun wr =>
    (List.range d).map (fun j => ((xv.zip wr).map (fun p => p.2 * p.1.getD j 0)).sum))

/-- einops.rearrange "h s d -> s (h d)" of one batch element. -/
def mergeHeads (t : Mat3) : Mat :=
  (List.range ((t.headD []).length)).map (fun si =>
    t.foldl (fun acc hm => acc ++ hm.getD si []) [])

def QKSelfAttention.forwardB (l : QKSelfAttention) (xb : Mat) : Mat :=
  let proj := xb.map l.qk_proj.forward1
  let q := proj.map (fun v => v.take (v.length / 2))
  let k := proj.map (fun v => v.drop (v.length / 2))
  let qh := splitHeads l.n_heads q
  let kh := splitHeads l.n_heads k
  let xh := splitHeads l.n_heads xb
  let headsOut := (qh.zip (kh.zip xh)).map (fun p =>
    let scores := p.1.map (fun qr => p.2.1.map (fun kr => dot qr kr * l.invSqrtHeadDim))
    let attn_weights := scores.map (softmaxWith l.expF)
    let attn_weights := dropoutEval attn_weights
    einsumWL l.head_dim attn_weights p.2.2)
  mergeHeads headsOut

def QKSelfAttention.forward (l : QKSelfAttention) (X : Mat3) : Mat3 :=
  X.map l.forwardB

/-- Modelled from the spec: TransformerEncoder
(pytorch_widedeep.models.tabular.transformers._encoders, file not among
the sources): a multi-head self-attention sublayer and a position-wise
feed-forward sublayer, each followed by a residual connection and a
normalization layer (the normalization is embedded as a frozen
per-feature affine map, like BatchNorm1d above). -/
structure TransformerEncoderBlk where
  attn : QKSelfAttention
  ff1 : Linear
  ff2 : Linear
  norm1 : BatchNorm1d
  norm2 : BatchNorm1d
  actF : ℚ → ℚ

def mkTransformerEncoderBlk (input_dim n_heads : ℕ) (use_qkv_bias : Bool)
    (expF actF : ℚ → ℚ) (invSqrtHD : ℚ) (θ : Init) : TransformerEncoderBlk :=
  { attn := buildQK input_dim use_qkv_bias n_heads expF invSqrtHD θ
    ff1 := mkLinear input_dim (input_dim * 4) true θ
    ff2 := mkLinear (input_dim * 4) input_dim true θ
    norm1 := mkBatchNorm input_dim θ
    norm2 := mkBatchNorm input_dim θ
    actF := actF }

def TransformerEncoderBlk.forwardB (blk : TransformerEncoderBlk) (xb : Mat) : Mat :=
  let a := blk.attn.forwardB xb
  let x1 := (List.zipWith addVec xb a).map blk.norm1.forward1
  let f := x1.map (fun v => blk.ff2.forward1 ((blk.ff1.forward1 v).map blk.actF))
  (List.zipWith addVec x1 f).map blk.norm2.forward1

/-- Configuration of TabTransformer. -/
structure TabTransformerCfg where
  column_idx : List (String × ℕ)
  cat_embed_input : Option (List (String × ℕ))
  continuous_cols : Option (List String)
  embed_continuous : Bool
  input_dim : ℕ
  n_heads : ℕ
  use_qkv_bias : Bool
  n_blocks : ℕ
  mlp_hidden_dims : Option (List ℕ)

def nCatOf (cfg : TabTransformerCfg) : ℕ :=
  match cfg.cat_embed_input with
  | some l => l.length
  | none => 0

def nContOf (cfg : TabTransformerCfg) : ℕ :=
  match cfg.continuous_cols with
  | some l => l.length
  | none => 0

/-- Abstract, spec-modelled embedding machinery owned by the base model
(pytorch_widedeep.models.tabular._base_tabular_model, file not among the
sources).  Each categorical or continuous column is encoded as an
input_dim-dimensional vector; the continuous columns are alternatively
passed through a normalization layer only.  The value generators are
abstracted as functions of the column position and the input row. -/
structure EmbedFuns where
  catF : ℕ → Vec → ℕ → ℚ
  contNormF : ℕ → Vec → ℚ
  contF : ℕ → Vec → ℕ → ℚ
  catActF : Option (ℚ → ℚ)

/-- The TabTransformer model as built by the constructor. -/
structure TabTransformerModel where
  with_cls_token : Bool
  embed_continuous : Bool
  n_cat : ℕ
  n_cont : ℕ
  input_dim : ℕ
  funs : EmbedFuns
  transformer_blks : List TransformerEncoderBlk
  transformer_mlp : MLP
  output_dim : ℕ

/-- TabTransformer._compute_attn_output_dim from the source. -/
def computeAttnOutputDim (with_cls_token embed_continuous : Bool)
    (n_cat n_cont input_dim : ℕ) : ℕ :=
  if with_cls_token then
    if embed_continuous then input_dim else input_dim + n_cont
  else if embed_continuous then (n_cat + n_cont) * input_dim
  else n_cat * input_dim + n_cont

/-- Modelled from the spec:
BaseTabularModelWithAttention.cat_and_cont_embed returns the categorical
columns embedded as (N, n_cat, input_dim) (or None when there are no
categorical columns) paired with the normalized continuous columns as
(N, n_cont) (or None when there are none). -/
def TabTransformerModel.catAndContEmbed (m : TabTransformerModel) (X : Mat) :
    Option Mat3 × Option Mat :=
  ( if m.n_cat = 0 then none
    else some (X.map (fun row =>
      (List.range m.n_cat).map (fun j =>
        (List.range m.input_dim).map (m.funs.catF j row)))),
    if m.n_cont = 0 then none
    else some (X.map (fun row =>
      (List.range m.n_cont).map (fun j => m.funs.contNormF j row))) )

/-- Modelled from the spec:
BaseTabularModelWithAttention._get_embeddings returns every column
(categorical then continuous, the latter each passed through a linear
embedding) encoded as an input_dim-dimensional vector, giving a
(N, n_cat + n_cont, input_dim) tensor. -/
def TabTransformerModel.getEmbeddings (m : TabTransformerModel) (X : Mat) : Mat3 :=
  X.map (fun row =>
    (List.range m.n_cat).map (fun j =>
      (List.range m.input_dim).map (m.funs.catF j row))
    ++ (List.range m.n_cont).map (fun j =>
      (List.range m.input_dim).map (m.funs.contF j row)))

/-- Body of TabTransformer.__init__ after the validation checks. -/
def TabTransformer.build (cfg : TabTransformerCfg) (funs : EmbedFuns)
    (expF actF : ℚ → ℚ) (invSqrtHD : ℚ) (θ : Init) : TabTransformerModel :=
  let with_cls := (assocFind cfg.column_idx "cls_token").isSome
  let n_cat := nCatOf cfg
  let n_cont := nContOf cfg
  let attn_output_dim :=
    computeAttnOutputDim with_cls cfg.embed_continuous n_cat n_cont cfg.input_dim
  let mlp_dims :=
    match cfg.mlp_hidden_dims with
    | none => [attn_output_dim, attn_output_dim * 4, attn_output_dim * 2]
    | some [] => [attn_output_dim, attn_output_dim * 4, attn_output_dim * 2]
    | some hidden => attn_output_dim :: hidden
  { with_cls_token := with_cls
    embed_continuous := cfg.embed_continuous
    n_cat := n_cat
    n_cont := n_cont
    input_dim := cfg.input_dim
    funs := funs
    transformer_blks := (List.range cfg.n_blocks).map (fun _ =>
      mkTransformerEncoderBlk cfg.input_dim cfg.n_heads cfg.use_qkv_bias
        expF actF invSqrtHD θ)
    transformer_mlp := mkMLP mlp_dims actF θ
    output_dim := mlp_dims.getLastD 0 }

/-- TabTransformer.__init__: the continuous-only check from the source,
followed by the head-divisibility rejection.  The latter is modelled from
the spec: the attention layers of the encoder (file not among the
sources) reject a head count that does not evenly divide the embedding
width, as for QueryKeySelfAttention above. -/
def TabTransformer.init (cfg : TabTransformerCfg) (funs : EmbedFuns)
    (expF actF : ℚ → ℚ) (invSqrtHD : ℚ) (θ : Init) :
    Except PyError TabTransformerModel :=
  if 0 < nContOf cfg ∧ nCatOf cfg = 0 ∧ ¬cfg.embed_continuous then
    .error (.valueError
      "If only continuous features are used embed_continuous must be set to True")
  else if ¬(0 < cfg.n_heads ∧ cfg.input_dim % cfg.n_heads = 0) then
    .error (.assertionError "input_dim must be divisible by n_heads")
  else .ok (TabTransformer.build cfg funs expF actF invSqrtHD θ)

/-- The part of TabTransformer.forward before the final MLP: embeddings,
transformer blocks, then either the cls-token slice or flattening, then
optionally the concatenation with the raw continuous columns. -/
def TabTransformerModel.preMlp (m : TabTransformerModel) (X : Mat) : Option Mat :=
  let pair :=
    if m.embed_continuous then (some (m.getEmbeddings X), (none : Option Mat))
    else m.catAndContEmbed X
  match pair.1 with
  | none => none
  | some x_cat =>
    let x0 :=
      if m.embed_continuous then x_cat
      else
        match m.funs.catActF with
        | some f => x_cat.map (fun mb => mb.map (fun v => v.map f))
        | none => x_cat
    let x1 := m.transformer_blks.foldl (fun A blk => A.map blk.forwardB) x0
    let flatO :=
      if m.with_cls_token then seqOpt (x1.map (fun mb => mb.head?))
      else some (x1.map (fun mb => mb.foldl (· ++ ·) []))
    match flatO with
    | none => none
    | some x2 =>
      some
        (match pair.2 with
         | some xc => if m.embed_continuous then x2 else zipCat x2 xc
         | none => x2)

def TabTransformerModel.forward (m : TabTransformerModel) (X : Mat) : Option Mat :=
  (m.preMlp X).map m.transformer_mlp.forward

/-- Zero-valued initializer used by the concrete witness instances. -/
def witInit : Init :=
  { w := fun _ _ => 0, b := fun _ => 0, s := fun _ => 0, t := fun _ => 0 }

/-- Concrete TabResnet configuration used by witness instances. -/
def witResnetCfg : TabResnetCfg :=
  { embed_input := [("a", 4, 3), ("b", 2, 5)]
    column_idx := [("a", 0), ("b", 1), ("e", 2), ("f", 3)]
    blocks_dims := [8, 8, 6]
    blocks_dropout := 1 / 2
    mlp_hidden_dims := some [10, 7]
    mlp_act := id
    continuous_cols := some ["e", "f"]
    batchnorm_cont := true
    concat_cont_first := false }

/-- Concrete input tensor used by witness instances. -/
def witX : Mat := [[1, 2, 1 / 2, 3], [0, 1, 1 / 4, -2], [4, 2, 2, 0]]

/-- Concrete TabTransformer configuration used by witness instances. -/
def witTransformerCfg : TabTransformerCfg :=
  { column_idx := [("a", 0), ("b", 1), ("e", 2)]
    cat_embed_input := some [("a", 4), ("b", 3)]
    continuous_cols := some ["e"]
    embed_continuous := false
    input_dim := 4
    n_heads := 2
    use_qkv_bias := false
    n_blocks := 2
    mlp_hidden_dims := none }

/-- Zero-valued embedding generators used by witness instances. -/
def witEmbedFuns : EmbedFuns :=
  { catF := fun _ _ _ => 0, contNormF := fun _ _ => 0, contF := fun _ _ _ => 0
    catActF := none }

/-- Concrete input tensor for the TabTransformer witness. -/
def witXT : Mat := [[1, 2, 1 / 2], [0, 1, 1 / 4]]

lemma mkLinear_forward1_length (inp out : ℕ) (ub : Bool) (θ : Init) (x : Vec) :
    ((mkLinear inp out ub θ).forward1 x).length = out := by
  cases ub <;> simp [mkLinear, Linear.forward1, mkMat]

lemma mkBatchNorm_forward1_length (d : ℕ) (θ : Init) (x : Vec) (h : x.length = d) :
    ((mkBatchNorm d θ).forward1 x).length = d := by
  simp [mkBatchNorm, BatchNorm1d.forward1, h]

lemma mkBasicBlock_forward1_length (d0 d1 : ℕ) (drop : ℚ) (θ : Init) (x : Vec)
    (h : x.length = d0) :
    ((mkBasicBlock d0 d1 drop
      (if d0 ≠ d1 then some (mkLinear d0 d1 true θ, mkBatchNorm d1 θ) else none)
      θ).forward1 x).length = d1 := by
  have hmain : ((mkBatchNorm d1 θ).forward1 ((mkLinear d1 d1 true θ).forward1
      (((mkBatchNorm d1 θ).forward1 ((mkLinear d0 d1 true θ).forward1 x)).map
        leakyReluQ))).length = d1 := by
    apply mkBatchNorm_forward1_length
    apply mkLinear_forward1_length
  by_cases hd : d0 = d1
  · subst hd
    simp only [mkBasicBlock, BasicBlock.forward1, dropoutEval, ite_self, ne_eq,
      not_true_eq_false, if_false, ite_not]
    simp [List.length_zipWith, hmain, h]
  · have hid : ((mkBatchNorm d1 θ).forward1 ((mkLinear d0 d1 true θ).forward1 x)).length = d1 := by
      apply mkBatchNorm_forward1_length
      apply mkLinear_forward1_length
    simp only [mkBasicBlock, BasicBlock.forward1, dropoutEval, ite_self, ne_eq, hd,
      not_false_eq_true, if_true]
    simp [List.length_zipWith, hmain, hid]

lemma buildBlocks_foldl_shape (drop : ℚ) (θ : Init) :
    ∀ (rest : List ℕ) (d0 : ℕ) (X : Mat) (n : ℕ), Mat.hasShape X n d0 →
      Mat.hasShape
        ((buildBlocks drop θ (d0 :: rest)).foldl (fun A blk => A.map blk.forward1) X)
        n ((d0 :: rest).getLastD 0) := by
  intro rest
  induction rest with
  | nil =>
    intro d0 X n h
    simpa [buildBlocks] using h
  | cons d1 rs ih =>
    intro d0 X n h
    have h1 : Mat.hasShape
        (X.map ((mkBasicBlock d0 d1 drop
          (if d0 ≠ d1 then some (mkLinear d0 d1 true θ, mkBatchNorm d1 θ) else none)
          θ).forward1)) n d1 := by
      constructor
      · simp [h.1]
      · intro r hr
        rcases List.mem_map.mp hr with ⟨r0, hr0, rfl⟩
        exact mkBasicBlock_forward1_length d0 d1 drop θ r0 (h.2 r0 hr0)
    have := ih d1 (X.map _) n h1
    simpa [buildBlocks, List.foldl_cons, List.getLastD_cons] using this

lemma mkDenseResnet_forward_shape (input_dim : ℕ) (dims : List ℕ) (drop : ℚ)
    (θ : Init) (dr : DenseResnet) (hmk : mkDenseResnet input_dim dims drop θ = some dr)
    (X : Mat) (n : ℕ) (h : Mat.hasShape X n input_dim) :
    Mat.hasShape (dr.forward X) n (dims.getLastD 0) := by
  cases dims with
  | nil => simp [mkDenseResnet] at hmk
  | cons d0 rest =>
    simp only [mkDenseResnet, Option.some.injEq] at hmk
    subst hmk
    unfold DenseResnet.forward
    by_cases hne : input_dim = d0
    · subst hne
      simp only [ne_eq, not_true_eq_false, if_false, ite_not]
      exact buildBlocks_foldl_shape drop θ rest input_dim X n h
    · simp only [ne_eq, hne, not_false_eq_true, if_true]
      apply buildBlocks_foldl_shape
      constructor
      · simp [h.1]
      · intro r hr
        rcases List.mem_map.mp hr with ⟨r1, hr1, rfl⟩
        rcases List.mem_map.mp hr1 with ⟨r0, _, rfl⟩
        apply mkBatchNorm_forward1_length
        apply mkLinear_forward1_length

lemma mkMLP_forward_shape (act : ℚ → ℚ) (θ : Init) :
    ∀ (rest : List ℕ) (d0 d1 : ℕ) (X : Mat),
      Mat.hasShape ((mkMLP (d0 :: d1 :: rest) act θ).forward X) X.length
        ((d0 :: d1 :: rest).getLastD 0) := by
  intro rest
  induction rest with
  | nil =>
    intro d0 d1 X
    constructor
    · simp [mkMLP, MLP.forward, buildMLPLayers]
    · intro r hr
      simp only [mkMLP, MLP.forward, buildMLPLayers, List.foldl_cons, List.foldl_nil] at hr
      rcases List.mem_map.mp hr with ⟨r1, hr1, rfl⟩
      rcases List.mem_map.mp hr1 with ⟨r0, _, rfl⟩
      simp [List.getLastD_cons, mkLinear_forward1_length]
  | cons d2 rs ih =>
    intro d0 d1 X
    have step := ih d1 d2 ((X.map (mkLinear d0 d1 true θ).forward1).map
      (fun v => v.map act))
    simp only [mkMLP, MLP.forward, buildMLPLayers, List.foldl_cons] at step ⊢
    simpa [List.getLastD_cons] using step

lemma seqOpt_shape {l : List (Option Vec)} {d : ℕ}
    (h : ∀ o ∈ l, ∃ v, o = some v ∧ v.length = d) :
    ∃ M, seqOpt l = some M ∧ M.length = l.length ∧ ∀ v ∈ M, v.length = d := by
  induction l with
  | nil => exact ⟨[], rfl, rfl, by simp⟩
  | cons o rest ih =>
    rcases h o (by simp) with ⟨v, rfl, hv⟩
    rcases ih (fun o ho => h o (by simp [ho])) with ⟨M, hM, hlen, hall⟩
    refine ⟨v :: M, ?_, by simp [hlen], ?_⟩
    · simp [seqOpt, hM]
    · intro u hu
      rcases List.mem_cons.mp hu with h1 | h2
      · simpa [h1] using hv
      · exact hall u h2

lemma seqOpt_map_mats {α : Type} {f : α → Option Mat} {l : List α} {n : ℕ}
    {df : α → ℕ} (h : ∀ e ∈ l, ∃ M, f e = some M ∧ Mat.hasShape M n (df e)) :
    ∃ Ms, seqOpt (l.map f) = some Ms ∧
      List.Forall₂ (fun M w => Mat.hasShape M n w) Ms (l.map df) := by
  induction l with
  | nil => exact ⟨[], rfl, by simp⟩
  | cons e rest ih =>
    rcases h e (by simp) with ⟨M, hM, hsh⟩
    rcases ih (fun e' he' => h e' (by simp [he'])) with ⟨Ms, hMs, hall⟩
    refine ⟨M :: Ms, ?_, ?_⟩
    · simp [seqOpt, hM, hMs]
    · exact List.Forall₂.cons hsh hall

lemma zipCat_shape {A B : Mat} {n a b : ℕ} (hA : Mat.hasShape A n a)
    (hB : Mat.hasShape B n b) : Mat.hasShape (zipCat A B) n (a + b) := by
  constructor
  · simp [zipCat, List.length_zipWith, hA.1, hB.1]
  · intro r hr
    rcases List.mem_iff_get.mp hr with ⟨i, hi⟩
    rw [← hi]
    have hiA : i.1 < A.length := by
      have := i.2
      simp [zipCat, List.length_zipWith, hA.1, hB.1] at this
      omega
    have hiB : i.1 < B.length := by
      have := i.2
      simp [zipCat, List.length_zipWith, hA.1, hB.1] at this
      omega
    simp only [zipCat, List.get_eq_getElem, List.getElem_zipWith]
    rw [List.length_append]
    rw [hA.2 _ (List.getElem_mem hiA), hB.2 _ (List.getElem_mem hiB)]

lemma foldl_zipCat_shape {n : ℕ} :
    ∀ {rest : List Mat} {ws : List ℕ} {acc : Mat} {a : ℕ},
      Mat.hasShape acc n a →
      List.Forall₂ (fun M w => Mat.hasShape M n w) rest ws →
      Mat.hasShape (rest.foldl zipCat acc) n (a + ws.sum) := by
  intro rest
  induction rest with
  | nil =>
    intro ws acc a hacc hall
    cases hall
    simpa using hacc
  | cons M rs ih =>
    intro ws acc a hacc hall
    cases hall with
    | cons hM hrest =>
      have := ih (zipCat_shape hacc hM) hrest
      simpa [List.foldl_cons, Nat.add_assoc] using this

lemma catDim1_shape {Ms : List Mat} {ws : List ℕ} {n : ℕ}
    (h : List.Forall₂ (fun M w => Mat.hasShape M n w) Ms ws) (hne : Ms ≠ []) :
    ∃ C, catDim1 Ms = some C ∧ Mat.hasShape C n ws.sum := by
  cases h with
  | nil => exact absurd rfl hne
  | cons hM hrest =>
    refine ⟨_, rfl, ?_⟩
    simpa using foldl_zipCat_shape hM hrest

lemma assocFind_of_mem {α : Type} (f : String × ℕ × ℕ → α) :
    ∀ (l : List (String × ℕ × ℕ)) (e : String × ℕ × ℕ), e ∈ l →
      (l.map (fun x => x.1)).Nodup →
      assocFind (l.map (fun x => (x.1, f x))) e.1 = some (f e) := by
  intro l
  induction l with
  | nil => intro e he; simp at he
  | cons a rest ih =>
    intro e he hnd
    simp only [List.map_cons, List.nodup_cons] at hnd
    rcases List.mem_cons.mp he with h1 | h2
    · subst h1
      simp [assocFind]
    · by_cases hk : a.1 = e.1
      · exfalso
        exact hnd.1 (hk ▸ List.mem_map.mpr ⟨e, h2, rfl⟩)
      · simp only [List.map_cons, assocFind, hk, if_false]
        exact ih e h2 hnd.2

lemma assocFind_nat_of_mem :
    ∀ (l : List (String × ℕ)) (e : String × ℕ), e ∈ l →
      (l.map (fun x => x.1)).Nodup →
      assocFind l e.1 = some e.2 := by
  intro l
  induction l with
  | nil => intro e he; simp at he
  | cons a rest ih =>
    intro e he hnd
    simp only [List.map_cons, List.nodup_cons] at hnd
    rcases List.mem_cons.mp he with h1 | h2
    · subst h1
      simp [assocFind]
    · by_cases hk : a.1 = e.1
      · exfalso
        exact hnd.1 (hk ▸ List.mem_map.mpr ⟨e, h2, rfl⟩)
      · simp only [assocFind, hk, if_false]
        exact ih e h2 hnd.2

lemma mkEmbeddingPad0_weight_length (num dim : ℕ) (θ : Init) :
    (mkEmbeddingPad0 num dim θ).weight.length = num := by
  simp [mkEmbeddingPad0]

lemma mkEmbeddingPad0_row_length (num dim : ℕ) (θ : Init) :
    ∀ v ∈ (mkEmbeddingPad0 num dim θ).weight, v.length = dim := by
  intro v hv
  simp only [mkEmbeddingPad0] at hv
  rcases List.mem_map.mp hv with ⟨i, _, rfl⟩
  by_cases hi : i = 0 <;> simp [hi, zeroVec]

lemma mkEmbeddingPad0_lookup_shape (num dim : ℕ) (θ : Init) (i : ℤ) (v : Vec)
    (h : (mkEmbeddingPad0 num dim θ).lookup i = some v) : v.length = dim := by
  unfold Embedding.lookup at h
  split at h
  · exact mkEmbeddingPad0_row_length num dim θ v (List.get?_mem h)
  · cases h

lemma mkEmbeddingPad0_lookup_some (num dim : ℕ) (θ : Init) (i : ℤ)
    (h0 : 0 ≤ i) (hlt : i.toNat < num) :
    ∃ v, (mkEmbeddingPad0 num dim θ).lookup i = some v ∧ v.length = dim := by
  unfold Embedding.lookup
  rw [if_pos h0]
  have hlen : i.toNat < (mkEmbeddingPad0 num dim θ).weight.length := by
    simpa [mkEmbeddingPad0_weight_length] using hlt
  rcases List.get?_eq_get hlen with hg
  refine ⟨_, hg, ?_⟩
  exact mkEmbeddingPad0_row_length num dim θ _ (List.get_mem _ _ _)

lemma mkEmbeddingPad0_lookup_zero (num dim : ℕ) (θ : Init) (h : 0 < num) :
    (mkEmbeddingPad0 num dim θ).lookup 0 = some (zeroVec dim) := by
  unfold Embedding.lookup
  rw [if_pos le_rfl]
  simp only [Int.toNat_zero, mkEmbeddingPad0]
  rw [List.get?_map, List.get?_range h]
  simp

lemma get?_isSome_iff {α : Type} (l : List α) (n : ℕ) :
    (l.get? n).isSome ↔ n < l.length := by
  induction l generalizing n with
  | nil => simp [List.get?]
  | cons a t ih =>
    cases n with
    | zero => simp [List.get?_cons_zero]
    | succ k => rw [List.get?_cons_succ, ih, List.length_cons]; omega

lemma mkEmbeddingPad0_lookup_isSome (num dim : ℕ) (θ : Init) (i : ℤ) :
    ((mkEmbeddingPad0 num dim θ).lookup i).isSome ↔ 0 ≤ i ∧ i.toNat < num := by
  unfold Embedding.lookup
  by_cases h0 : 0 ≤ i
  · rw [if_pos h0, get?_isSome_iff, mkEmbeddingPad0_weight_length]
    simp [h0]
  · rw [if_neg h0]
    simp [h0]

lemma splitHeads_length (h : ℕ) (xb : Mat) : (splitHeads h xb).length = h := by
  simp [splitHeads]

lemma splitHeads_shape {h d n : ℕ} (hpos : 0 < h) {xb : Mat}
    (hx : Mat.hasShape xb n (h * d)) :
    ∀ hm ∈ splitHeads h xb, Mat.hasShape hm n d := by
  intro hm hmem
  rcases List.mem_map.mp hmem with ⟨hi, hhi, rfl⟩
  have hhi' : hi < h := List.mem_range.mp hhi
  constructor
  · simp [hx.1]
  · intro r hr
    rcases List.mem_map.mp hr with ⟨v, hv, rfl⟩
    have hlen : v.length = h * d := hx.2 v hv
    rw [List.length_take, List.length_drop, hlen,
      Nat.mul_div_cancel_left d hpos]
    have h1 : (hi + 1) * d ≤ h * d := Nat.mul_le_mul_right d hhi'
    have h2 : hi * d + d ≤ h * d := by
      calc hi * d + d = (hi + 1) * d := by ring
        _ ≤ h * d := h1
    omega

lemma einsumWL_shape (d : ℕ) (w xv : Mat) :
    Mat.hasShape (einsumWL d w xv) w.length d := by
  constructor
  · simp [einsumWL]
  · intro r hr
    rcases List.mem_map.mp hr with ⟨wr, _, rfl⟩
    simp

lemma foldl_append_getD_length (si : ℕ) :
    ∀ (t : Mat3) (acc : Vec),
      (t.foldl (fun a hm => a ++ hm.getD si []) acc).length =
        acc.length + (t.map (fun hm => (hm.getD si []).length)).sum := by
  intro t
  induction t with
  | nil => intro acc; simp
  | cons m rs ih =>
    intro acc
    rw [List.foldl_cons, ih, List.map_cons, List.sum_cons, List.length_append]
    omega

lemma sum_map_const_len {α : Type} {l : List α} {f : α → ℕ} {d : ℕ}
    (h : ∀ x ∈ l, f x = d) : (l.map f).sum = l.length * d := by
  induction l with
  | nil => simp
  | cons a rs ih =>
    rw [List.map_cons, List.sum_cons, h a (by simp), List.length_cons,
      ih (fun x hx => h x (by simp [hx]))]
    ring

lemma getD_length_of_shape {hm : Mat} {s d si : ℕ} (hsh : Mat.hasShape hm s d)
    (hsi : si < s) : (hm.getD si []).length = d := by
  rw [List.getD_eq_get?]
  have hlt : si < hm.length := by rw [hsh.1]; exact hsi
  rcases List.get?_eq_get hlt with hg
  rw [hg]
  exact hsh.2 _ (List.get_mem _ _ _)

lemma mergeHeads_shape {t : Mat3} {h s d : ℕ} (hlen : t.length = h)
    (hpos : 0 < h) (hall : ∀ hm ∈ t, Mat.hasShape hm s d) :
    Mat.hasShape (mergeHeads t) s (h * d) := by
  have hhead : (t.headD []).length = s := by
    cases t with
    | nil => simp at hlen; omega
    | cons m0 rest => exact (hall m0 (by simp)).1
  constructor
  · simp only [mergeHeads, List.length_map, List.length_range, hhead]
  · intro r hr
    simp only [mergeHeads] at hr
    rcases List.mem_map.mp hr with ⟨si, hsi, rfl⟩
    have hsi' : si < s := by
      rw [hhead] at hsi
      exact List.mem_range.mp hsi
    rw [foldl_append_getD_length]
    rw [sum_map_const_len (fun hm hmem => getD_length_of_shape (hall hm hmem) hsi')]
    rw [hlen]
    simp

lemma buildQK_forwardB_shape (input_dim : ℕ) (use_bias : Bool) (n_heads : ℕ)
    (expF : ℚ → ℚ) (invSqrtHD : ℚ) (θ : Init) (hpos : 0 < n_heads)
    (hdvd : n_heads ∣ input_dim) {xb : Mat} {s : ℕ}
    (hx : Mat.hasShape xb s input_dim) :
    Mat.hasShape ((buildQK input_dim use_bias n_heads expF invSqrtHD θ).forwardB xb)
      s input_dim := by
  rcases hdvd with ⟨d, hd⟩
  have hhd : input_dim / n_heads = d := by
    rw [hd, Nat.mul_div_cancel_left d hpos]
  have hprojsh : Mat.hasShape
      (xb.map (mkLinear input_dim (input_dim * 2) use_bias θ).forward1)
      s (input_dim * 2) := by
    constructor
    · simp [hx.1]
    · intro r hr
      rcases List.mem_map.mp hr with ⟨v, _, rfl⟩
      exact mkLinear_forward1_length _ _ _ _ _
  have hq : Mat.hasShape
      ((xb.map (mkLinear input_dim (input_dim * 2) use_bias θ).forward1).map
        (fun v => v.take (v.length / 2))) s (n_heads * d) := by
    constructor
    · simp [hx.1]
    · intro r hr
      rcases List.mem_map.mp hr with ⟨v, hv, rfl⟩
      rw [List.length_take, hprojsh.2 v hv,
        Nat.mul_div_cancel _ (by omega : 0 < 2)]
      omega
  have hxh : Mat.hasShape xb s (n_heads * d) := by
    rw [← hd]
    exact hx
  have hmerge : ∀ hm ∈
      (((splitHeads n_heads
          ((xb.map (mkLinear input_dim (input_dim * 2) use_bias θ).forward1).map
            (fun v => v.take (v.length / 2)))).zip
        ((splitHeads n_heads
          ((xb.map (mkLinear input_dim (input_dim * 2) use_bias θ).forward1).map
            (fun v => v.drop (v.length / 2)))).zip
          (splitHeads n_heads xb))).map (fun p =>
            einsumWL (input_dim / n_heads)
              (dropoutEval
                ((p.1.map (fun qr => p.2.1.map (fun kr => dot qr kr * invSqrtHD))).map
                  (softmaxWith expF))) p.2.2)),
      Mat.hasShape hm s d := by
    intro hm hmem
    rcases List.mem_map.mp hmem with ⟨p, hp, rfl⟩
    have h1 := List.of_mem_zip hp
    have h2 := List.of_mem_zip h1.2
    have hqhead := splitHeads_shape hpos hq p.1 h1.1
    have hsh := einsumWL_shape (input_dim / n_heads)
      (dropoutEval
        ((p.1.map (fun qr => p.2.1.map (fun kr => dot qr kr * invSqrtHD))).map
          (softmaxWith expF))) p.2.2
    have hrows : (dropoutEval
        ((p.1.map (fun qr => p.2.1.map (fun kr => dot qr kr * invSqrtHD))).map
          (softmaxWith expF))).length = s := by
      simp [dropoutEval, hqhead.1]
    rw [hrows] at hsh
    rw [← hhd]
    exact hsh
  have hzlen :
      (((splitHeads n_heads
          ((xb.map (mkLinear input_dim (input_dim * 2) use_bias θ).forward1).map
            (fun v => v.take (v.length / 2)))).zip
        ((splitHeads n_heads
          ((xb.map (mkLinear input_dim (input_dim * 2) use_bias θ).forward1).map
            (fun v => v.drop (v.length / 2)))).zip
          (splitHeads n_heads xb))).map (fun p =>
            einsumWL (input_dim / n_heads)
              (dropoutEval
                ((p.1.map (fun qr => p.2.1.map (fun kr => dot qr kr * invSqrtHD))).map
                  (softmaxWith expF))) p.2.2)).length = n_heads := by
    rw [List.length_map, List.length_zip, List.length_zip]
    simp [splitHeads_length]
  have hfin := mergeHeads_shape hzlen hpos hmerge
  rw [← hd] at hfin
  exact hfin

lemma zipWith_addVec_shape {A B : Mat} {n d : ℕ} (hA : Mat.hasShape A n d)
    (hB : Mat.hasShape B n d) : Mat.hasShape (List.zipWith addVec A B) n d := by
  constructor
  · simp [List.length_zipWith, hA.1, hB.1]
  · intro r hr
    rcases List.mem_iff_get.mp hr with ⟨i, hi⟩
    rw [← hi]
    have hiA : i.1 < A.length := by
      have := i.2
      simp only [List.length_zipWith, hA.1, hB.1, lt_inf_iff] at this
      rw [hA.1]
      exact this.1
    have hiB : i.1 < B.length := by
      have := i.2
      simp only [List.length_zipWith, hA.1, hB.1, lt_inf_iff] at this
      rw [hB.1]
      exact this.2
    simp only [List.get_eq_getElem, List.getElem_zipWith, addVec, List.length_zipWith]
    rw [hA.2 _ (List.getElem_mem hiA), hB.2 _ (List.getElem_mem hiB)]
    simp

lemma mkContextAttention_inputDim (d : ℕ) (flag : Bool) (tanhF expF : ℚ → ℚ)
    (θ : Init) : (mkContextAttention d flag tanhF expF θ).inputDim = d := by
  simp [mkContextAttention, ContextAttention.inputDim, mkLinear, mkMat]

lemma mkContextAttention_weighted_shape (d : ℕ) (flag : Bool)
    (tanhF expF : ℚ → ℚ) (θ : Init) {X : Mat3} {b s : ℕ}
    (h : Mat3.hasShape X b s d) :
    Mat3.hasShape ((mkContextAttention d flag tanhF expF θ).weighted X) b s d := by
  constructor
  · simp [ContextAttention.weighted, h.1]
  · intro mb hmb
    simp only [ContextAttention.weighted] at hmb
    rcases List.mem_map.mp hmb with ⟨xb, hxb, rfl⟩
    have hxbsh := h.2 xb hxb
    simp only [dropoutEval]
    constructor
    · simp [List.length_zipWith, softmaxWith, hxbsh.1]
    · intro r hr
      rcases List.mem_iff_get.mp hr with ⟨i, hi⟩
      rw [← hi]
      simp only [List.get_eq_getElem, List.getElem_zipWith, List.length_map]
      have hilt : i.1 < xb.length := by
        have := i.2
        simp only [List.length_zipWith, lt_inf_iff] at this
        exact this.2
      exact hxbsh.2 _ (List.getElem_mem hilt)

lemma sumRows_length {d : ℕ} {m : Mat} (h : ∀ r ∈ m, r.length = d) :
    (sumRows d m).length = d := by
  suffices haux : ∀ (l : Mat) (acc : Vec), acc.length = d → (∀ r ∈ l, r.length = d) →
      (l.foldl addVec acc).length = d by
    exact haux m (zeroVec d) (by simp [zeroVec]) h
  intro l
  induction l with
  | nil => intro acc hacc _; simpa using hacc
  | cons r rs ih =>
    intro acc hacc hall
    rw [List.foldl_cons]
    apply ih
    · simp [addVec, List.length_zipWith, hacc, hall r (by simp)]
    · intro r' hr'
      exact hall r' (by simp [hr'])

lemma mkTransformerEncoderBlk_forwardB_shape (input_dim n_heads : ℕ)
    (use_qkv_bias : Bool) (expF actF : ℚ → ℚ) (invSqrtHD : ℚ) (θ : Init)
    (hpos : 0 < n_heads) (hdvd : n_heads ∣ input_dim) {xb : Mat} {s : ℕ}
    (hx : Mat.hasShape xb s input_dim) :
    Mat.hasShape
      ((mkTransformerEncoderBlk input_dim n_heads use_qkv_bias expF actF
        invSqrtHD θ).forwardB xb) s input_dim := by
  have ha : Mat.hasShape
      ((buildQK input_dim use_qkv_bias n_heads expF invSqrtHD θ).forwardB xb)
      s input_dim :=
    buildQK_forwardB_shape input_dim use_qkv_bias n_heads expF invSqrtHD θ
      hpos hdvd hx
  have hx1 : Mat.hasShape
      ((List.zipWith addVec xb
        ((buildQK input_dim use_qkv_bias n_heads expF invSqrtHD θ).forwardB xb)).map
        (mkBatchNorm input_dim θ).forward1) s input_dim := by
    have hz := zipWith_addVec_shape hx ha
    constructor
    · simp [hz.1]
    · intro r hr
      rcases List.mem_map.mp hr with ⟨v, hv, rfl⟩
      exact mkBatchNorm_forward1_length _ _ _ (hz.2 v hv)
  have hf : Mat.hasShape
      (((List.zipWith addVec xb
        ((buildQK input_dim use_qkv_bias n_heads expF invSqrtHD θ).forwardB xb)).map
        (mkBatchNorm input_dim θ).forward1).map (fun v =>
          (mkLinear (input_dim * 4) input_dim true θ).forward1
            (((mkLinear input_dim (input_dim * 4) true θ).forward1 v).map actF)))
      s input_dim := by
    constructor
    · simp [List.length_zipWith, hx.1, ha.1]
    · intro r hr
      rcases List.mem_map.mp hr with ⟨v, _, rfl⟩
      exact mkLinear_forward1_length _ _ _ _ _
  have hz2 := zipWith_addVec_shape hx1 hf
  constructor
  · simp [TransformerEncoderBlk.forwardB, mkTransformerEncoderBlk,
      List.length_zipWith, hx.1, ha.1]
  · intro r hr
    simp only [TransformerEncoderBlk.forwardB, mkTransformerEncoderBlk] at hr
    rcases List.mem_map.mp hr with ⟨v, hv, rfl⟩
    exact mkBatchNorm_forward1_length _ _ _ (hz2.2 v hv)

lemma foldl_blocks_shape {input_dim s : ℕ} :
    ∀ (blocks : List TransformerEncoderBlk)
      (hblk : ∀ blk ∈ blocks, ∀ (xb : Mat), Mat.hasShape xb s input_dim →
        Mat.hasShape (blk.forwardB xb) s input_dim)
      (X : Mat3) (b : ℕ),
      Mat3.hasShape X b s input_dim →
      Mat3.hasShape (blocks.foldl (fun A blk => A.map blk.forwardB) X) b s input_dim := by
  intro blocks
  induction blocks with
  | nil => intro _ X b h; simpa using h
  | cons blk rs ih =>
    intro hblk X b h
    rw [List.foldl_cons]
    apply ih (fun blk' hb' => hblk blk' (by simp [hb']))
    constructor
    · simp [h.1]
    · intro mb hmb
      rcases List.mem_map.mp hmb with ⟨xb, hxb, rfl⟩
      exact hblk blk (by simp) xb (h.2 xb hxb)

lemma foldl_append_acc_length :
    ∀ (mb : Mat) (acc : Vec),
      (mb.foldl (· ++ ·) acc).length = acc.length + (mb.map List.length).sum := by
  intro mb
  induction mb with
  | nil => intro acc; simp
  | cons r rs ih =>
    intro acc
    rw [List.foldl_cons, ih, List.map_cons, List.sum_cons, List.length_append]
    omega

lemma flatten_length {mb : Mat} {s d : ℕ} (h : Mat.hasShape mb s d) :
    (mb.foldl (· ++ ·) ([] : Vec)).length = s * d := by
  rw [foldl_append_acc_length, sum_map_const_len h.2, h.1]
  simp

lemma head?_of_shape {mb : Mat} {s d : ℕ} (h : Mat.hasShape mb s d)
    (hs : 1 ≤ s) : ∃ r, mb.head? = some r ∧ r.length = d := by
  cases mb with
  | nil =>
    exfalso
    have := h.1
    simp at this
    omega
  | cons a t => exact ⟨a, rfl, h.2 a (by simp)⟩

lemma catAndContEmbed_fst (m : TabTransformerModel) (X : Mat)
    (h : m.n_cat ≠ 0) :
    ∃ t, (m.catAndContEmbed X).1 = some t ∧
      Mat3.hasShape t X.length m.n_cat m.input_dim := by
  refine ⟨X.map (fun row => (List.range m.n_cat).map (fun j =>
    (List.range m.input_dim).map (m.funs.catF j row))), ?_, ?_⟩
  · simp [TabTransformerModel.catAndContEmbed, h]
  constructor
  · simp
  · intro mb hmb
    rcases List.mem_map.mp hmb with ⟨row, _, rfl⟩
    constructor
    · simp
    · intro r hr
      rcases List.mem_map.mp hr with ⟨j, _, rfl⟩
      simp

lemma catAndContEmbed_snd (m : TabTransformerModel) (X : Mat)
    (h : m.n_cont ≠ 0) :
    ∃ C, (m.catAndContEmbed X).2 = some C ∧ Mat.hasShape C X.length m.n_cont := by
  refine ⟨X.map (fun row => (List.range m.n_cont).map (fun j =>
    m.funs.contNormF j row)), ?_, ?_⟩
  · simp [TabTransformerModel.catAndContEmbed, h]
  constructor
  · simp
  · intro r hr
    rcases List.mem_map.mp hr with ⟨row, _, rfl⟩
    simp

lemma catAndContEmbed_snd_none (m : TabTransformerModel) (X : Mat)
    (h : m.n_cont = 0) : (m.catAndContEmbed X).2 = none := by
  simp [TabTransformerModel.catAndContEmbed, h]

lemma getEmbeddings_shape (m : TabTransformerModel) (X : Mat) :
    Mat3.hasShape (m.getEmbeddings X) X.length (m.n_cat + m.n_cont) m.input_dim := by
  constructor
  · simp [TabTransformerModel.getEmbeddings]
  · intro mb hmb
    rcases List.mem_map.mp hmb with ⟨row, _, rfl⟩
    constructor
    · simp
    · intro r hr
      rcases List.mem_append.mp hr with h1 | h1 <;>
        · rcases List.mem_map.mp h1 with ⟨j, _, rfl⟩
          simp

lemma map3_shape {t : Mat3} {b s d : ℕ} (f : ℚ → ℚ) (h : Mat3.hasShape t b s d) :
    Mat3.hasShape (t.map (fun mb => mb.map (fun v => v.map f))) b s d := by
  constructor
  · simp [h.1]
  · intro mb hmb
    rcases List.mem_map.mp hmb with ⟨mb0, hmb0, rfl⟩
    constructor
    · simp [(h.2 mb0 hmb0).1]
    · intro r hr
      rcases List.mem_map.mp hr with ⟨v, hv, rfl⟩
      simp [(h.2 mb0 hmb0).2 v hv]

lemma flatten_map_shape {x1 : Mat3} {n s d : ℕ}
    (h : Mat3.hasShape x1 n s d) :
    Mat.hasShape (x1.map (fun mb => mb.foldl (· ++ ·) [])) n (s * d) := by
  constructor
  · simp [h.1]
  · intro r hr
    rcases List.mem_map.mp hr with ⟨mb, hmb, rfl⟩
    exact flatten_length (h.2 mb hmb)

lemma cls_slice_shape {x1 : Mat3} {n s d : ℕ} (h : Mat3.hasShape x1 n s d)
    (hs : 1 ≤ s) :
    ∃ x2, seqOpt (x1.map (fun mb => mb.head?)) = some x2 ∧
      Mat.hasShape x2 n d := by
  have hyp : ∀ o ∈ x1.map (fun mb => mb.head?), ∃ r, o = some r ∧ r.length = d := by
    intro o ho
    rcases List.mem_map.mp ho with ⟨mb, hmb, rfl⟩
    exact head?_of_shape (h.2 mb hmb) hs
  have := seqOpt_shape hyp
  rcases this with ⟨x2, hx2, hlen, hall⟩
  refine ⟨x2, hx2, ?_, hall⟩
  rw [hlen, List.length_map, h.1]

lemma preMlpTail_shape {m : TabTransformerModel} {x0 : Mat3} {N seq : ℕ}
    (hblk : ∀ blk ∈ m.transformer_blks, ∀ (xb : Mat) (s : ℕ),
      Mat.hasShape xb s m.input_dim → Mat.hasShape (blk.forwardB xb) s m.input_dim)
    (hx0 : Mat3.hasShape x0 N seq m.input_dim)
    (hcls : m.with_cls_token = true → 1 ≤ seq) :
    ∃ x2,
      (if m.with_cls_token then
        seqOpt ((m.transformer_blks.foldl (fun A blk => A.map blk.forwardB) x0).map
          (fun mb => mb.head?))
      else
        some ((m.transformer_blks.foldl (fun A blk => A.map blk.forwardB) x0).map
          (fun mb => mb.foldl (· ++ ·) []))) = some x2 ∧
      Mat.hasShape x2 N
        (if m.with_cls_token then m.input_dim else seq * m.input_dim) := by
  have hx1 : Mat3.hasShape
      (m.transformer_blks.foldl (fun A blk => A.map blk.forwardB) x0)
      N seq m.input_dim :=
    foldl_blocks_shape m.transformer_blks
      (fun blk hb xb hx => hblk blk hb xb seq hx) x0 N hx0
  by_cases hcl : m.with_cls_token = true
  · rcases cls_slice_shape hx1 (hcls hcl) with ⟨x2, hx2, hsh⟩
    refine ⟨x2, ?_, ?_⟩
    · simp only [hcl, if_true, hx2]
    · simp only [hcl, if_true]
      exact hsh
  · refine ⟨(m.transformer_blks.foldl (fun A blk => A.map blk.forwardB) x0).map
      (fun mb => mb.foldl (· ++ ·) []), by simp [hcl], ?_⟩
    simp only [hcl, if_false]
    exact flatten_map_shape hx1

lemma preMlp_shape (m : TabTransformerModel) (X : Mat)
    (hblk : ∀ blk ∈ m.transformer_blks, ∀ (xb : Mat) (s : ℕ),
      Mat.hasShape xb s m.input_dim → Mat.hasShape (blk.forwardB xb) s m.input_dim)
    (hcat : m.embed_continuous = true ∨ 1 ≤ m.n_cat)
    (hcls : m.with_cls_token = true → 1 ≤ m.n_cat) :
    ∃ y, m.preMlp X = some y ∧ Mat.hasShape y X.length
      (computeAttnOutputDim m.with_cls_token m.embed_continuous m.n_cat m.n_cont
        m.input_dim) := by
  by_cases hec : m.embed_continuous = true
  · have hx0 := getEmbeddings_shape m X
    have hcls2 : m.with_cls_token = true → 1 ≤ m.n_cat + m.n_cont := by
      intro h
      have := hcls h
      omega
    rcases preMlpTail_shape hblk hx0 hcls2 with ⟨x2, htail, hsh⟩
    refine ⟨x2, ?_, ?_⟩
    · simp only [TabTransformerModel.preMlp, hec, if_true, htail]
    · by_cases hcl : m.with_cls_token = true
      · simp only [hcl, if_true] at hsh
        simpa [computeAttnOutputDim, hec, hcl] using hsh
      · simp only [hcl, if_false] at hsh
        simpa [computeAttnOutputDim, hec, hcl] using hsh
  · have heceq : m.embed_continuous = false := by simpa using hec
    have hncat : 1 ≤ m.n_cat := by
      rcases hcat with h | h
      · exact absurd h (by simp [heceq])
      · exact h
    rcases catAndContEmbed_fst m X (by omega) with ⟨t, ht, htsh⟩
    rcases hact : m.funs.catActF with _ | f
    · rcases preMlpTail_shape hblk htsh (fun _ => hncat) with ⟨x2, htail, hsh⟩
      by_cases hnc : m.n_cont = 0
      · refine ⟨x2, ?_, ?_⟩
        · simp only [TabTransformerModel.preMlp, heceq, Bool.false_eq_true,
            if_false, ht, hact, htail, catAndContEmbed_snd_none m X hnc]
        · by_cases hcl : m.with_cls_token = true
          · simp only [hcl, if_true] at hsh
            simpa [computeAttnOutputDim, heceq, hcl, hnc] using hsh
          · simp only [hcl, if_false] at hsh
            simpa [computeAttnOutputDim, heceq, hcl, hnc] using hsh
      · rcases catAndContEmbed_snd m X hnc with ⟨C, hC, hCsh⟩
        refine ⟨zipCat x2 C, ?_, ?_⟩
        · simp only [TabTransformerModel.preMlp, heceq, Bool.false_eq_true,
            if_false, ht, hact, htail, hC]
        · by_cases hcl : m.with_cls_token = true
          · simp only [hcl, if_true] at hsh
            have := zipCat_shape hsh hCsh
            simpa [computeAttnOutputDim, heceq, hcl] using this
          · simp only [hcl, if_false] at hsh
            have := zipCat_shape hsh hCsh
            simpa [computeAttnOutputDim, heceq, hcl] using this
    · have hx0sh := map3_shape f htsh
      rcases preMlpTail_shape hblk hx0sh (fun _ => hncat) with ⟨x2, htail, hsh⟩
      by_cases hnc : m.n_cont = 0
      · refine ⟨x2, ?_, ?_⟩
        · simp only [TabTransformerModel.preMlp, heceq, Bool.false_eq_true,
            if_false, ht, hact, htail, catAndContEmbed_snd_none m X hnc]
        · by_cases hcl : m.with_cls_token = true
          · simp only [hcl, if_true] at hsh
            simpa [computeAttnOutputDim, heceq, hcl, hnc] using hsh
          · simp only [hcl, if_false] at hsh
            simpa [computeAttnOutputDim, heceq, hcl, hnc] using hsh
      · rcases catAndContEmbed_snd m X hnc with ⟨C, hC, hCsh⟩
        refine ⟨zipCat x2 C, ?_, ?_⟩
        · simp only [TabTransformerModel.preMlp, heceq, Bool.false_eq_true,
            if_false, ht, hact, htail, hC]
        · by_cases hcl : m.with_cls_token = true
          · simp only [hcl, if_true] at hsh
            have := zipCat_shape hsh hCsh
            simpa [computeAttnOutputDim, heceq, hcl] using this
          · simp only [hcl, if_false] at hsh
            have := zipCat_shape hsh hCsh
            simpa [computeAttnOutputDim, heceq, hcl] using this

lemma seqOpt_forall {α : Type} {P : α → Prop} :
    ∀ {l : List (Option α)}, (∀ o ∈ l, ∃ a, o = some a ∧ P a) →
      ∃ l2, seqOpt l = some l2 ∧ l2.length = l.length ∧ ∀ a ∈ l2, P a := by
  intro l
  induction l with
  | nil => intro _; exact ⟨[], rfl, rfl, by simp⟩
  | cons o rest ih =>
    intro h
    rcases h o (by simp) with ⟨a, rfl, ha⟩
    rcases ih (fun o ho => h o (by simp [ho])) with ⟨l2, hl2, hlen, hall⟩
    refine ⟨a :: l2, by simp [seqOpt, hl2], by simp [hlen], ?_⟩
    intro a2 ha2
    rcases List.mem_cons.mp ha2 with h1 | h2
    · simpa [h1] using ha
    · exact hall a2 h2

lemma mkDenseResnet_getD (i : ℕ) (dims : List ℕ) (drop : ℚ) (θ : Init)
    (h : dims ≠ []) :
    mkDenseResnet i dims drop θ =
      some ((mkDenseResnet i dims drop θ).getD { head := none, blocks := [] }) := by
  cases dims with
  | nil => exact absurd rfl h
  | cons d0 rest => rfl

lemma getLastD_irrel {l : List ℕ} (h : l ≠ []) (a b : ℕ) :
    l.getLastD a = l.getLastD b := by
  cases l with
  | nil => exact absurd rfl h
  | cons x xs =>
    cases hgl : (x :: xs).getLast? with
    | none =>
      rw [List.getLast?_eq_none_iff] at hgl
      cases hgl
    | some y => simp [List.getLastD_eq_getLast?, hgl]

lemma mlp_wrap_shape (mi h0 : ℕ) (hrest : List ℕ) (act : ℚ → ℚ) (θ : Init)
    {out : Mat} {n : ℕ} (hn : out.length = n) :
    Mat.hasShape ((mkMLP (mi :: h0 :: hrest) act θ).forward out) n
      ((mi :: h0 :: hrest).getLastD 0) := by
  have := mkMLP_forward_shape act θ hrest mi h0 out
  rw [hn] at this
  exact this

lemma seqOpt_lengths {α : Type} :
    ∀ {l : List (Option α)}, (∀ o ∈ l, ∃ a, o = some a) →
      ∃ l2, seqOpt l = some l2 ∧ l2.length = l.length := by
  intro l
  induction l with
  | nil => intro _; exact ⟨[], rfl, rfl⟩
  | cons o rest ih =>
    intro h
    rcases h o (by simp) with ⟨a, rfl⟩
    rcases ih (fun o ho => h o (by simp [ho])) with ⟨l2, hl2, hlen⟩
    exact ⟨a :: l2, by simp [seqOpt, hl2], by simp [hlen]⟩

lemma map_bn_shape {xc : Mat} {n d : ℕ} (θ : Init) (h : Mat.hasShape xc n d) :
    Mat.hasShape (xc.map (mkBatchNorm d θ).forward1) n d := by
  constructor
  · simp [h.1]
  · intro r hr
    rcases List.mem_map.mp hr with ⟨v, hv, rfl⟩
    exact mkBatchNorm_forward1_length _ _ _ (h.2 v hv)

lemma tabResnet_build_forward_shape
    (cfg : TabResnetCfg) (θ : Init) (X : Mat) (n w : ℕ)
    (hlen : 2 ≤ cfg.blocks_dims.length)
    (hemb : cfg.embed_input ≠ [])
    (hnd : (cfg.embed_input.map (fun e => e.1)).Nodup)
    (hX : Mat.hasShape X n w)
    (hcols : ∀ e ∈ cfg.embed_input, ∃ idx,
        assocFind cfg.column_idx e.1 = some idx ∧ idx < w ∧
        ∀ row ∈ X, 0 ≤ longOf (row.getD idx 0) ∧
          (longOf (row.getD idx 0)).toNat < e.2.1 + 1)
    (hcont : ∀ cols, cfg.continuous_cols = some cols → ∀ c ∈ cols,
        ∃ idx, assocFind cfg.column_idx c = some idx ∧ idx < w) :
    ∃ out, (TabResnet.build cfg θ).forward X = some out ∧
      Mat.hasShape out n (TabResnet.build cfg θ).output_dim := by
  have hne : cfg.blocks_dims ≠ [] := by
    intro h0
    rw [h0] at hlen
    simp at hlen
  have hcolM : ∀ e ∈ cfg.embed_input, ∃ M,
      ((assocFind cfg.column_idx e.1).bind (fun idx =>
        (assocFind (cfg.embed_input.map (fun e2 =>
          (e2.1, mkEmbeddingPad0 (e2.2.1 + 1) e2.2.2 θ))) e.1).bind (fun emb =>
          seqOpt (X.map (fun (row : Vec) =>
            (row.get? idx).bind (fun q => emb.lookup (longOf q))))))) = some M ∧
      Mat.hasShape M n e.2.2 := by
    intro e he
    rcases hcols e he with ⟨idx, hidx, hw, hcode⟩
    have hfind := assocFind_of_mem
      (fun x => mkEmbeddingPad0 (x.2.1 + 1) x.2.2 θ) cfg.embed_input e he hnd
    have hrows : ∀ o ∈ X.map (fun (row : Vec) =>
        (row.get? idx).bind (fun q =>
          (mkEmbeddingPad0 (e.2.1 + 1) e.2.2 θ).lookup (longOf q))),
        ∃ v, o = some v ∧ v.length = e.2.2 := by
      intro o ho
      rcases List.mem_map.mp ho with ⟨row, hrow, rfl⟩
      have hidxlt : idx < row.length := by rw [hX.2 row hrow]; exact hw
      obtain ⟨q, hq⟩ : ∃ q, row.get? idx = some q := by
        have hs := (get?_isSome_iff row idx).mpr hidxlt
        rcases hg : row.get? idx with _ | q
        · rw [hg] at hs; simp at hs
        · exact ⟨q, rfl⟩
      have hcd := hcode row hrow
      rw [List.getD_eq_get?, hq] at hcd
      simp only [Option.getD_some] at hcd
      rcases mkEmbeddingPad0_lookup_some (e.2.1 + 1) e.2.2 θ (longOf q)
        hcd.1 hcd.2 with ⟨v, hv, hvlen⟩
      refine ⟨v, ?_, hvlen⟩
      rw [hq, Option.some_bind]
      exact hv
    rcases seqOpt_shape hrows with ⟨M, hM, hMlen, hMall⟩
    refine ⟨M, ?_, ?_, hMall⟩
    · simp only [hidx, hfind, Option.some_bind]
      exact hM
    · rw [hMlen, List.length_map, hX.1]
  rcases seqOpt_map_mats hcolM with ⟨Ms, hMs, hfa⟩
  have hMs_ne : Ms ≠ [] := by
    intro h0
    have hl := List.Forall₂.length_eq hfa
    rw [h0] at hl
    simp only [List.length_nil, List.length_map] at hl
    exact hemb (List.length_eq_zero.mp hl.symm)
  rcases catDim1_shape hfa hMs_ne with ⟨x0, hx0, hx0sh⟩
  cases hc : cfg.continuous_cols with
  | none =>
    have hdeq := mkDenseResnet_getD ((cfg.embed_input.map (fun e => e.2.2)).sum)
      cfg.blocks_dims cfg.blocks_dropout θ hne
    have hdsh := mkDenseResnet_forward_shape
      ((cfg.embed_input.map (fun e => e.2.2)).sum) cfg.blocks_dims
      cfg.blocks_dropout θ _ hdeq x0 n hx0sh
    cases hm : cfg.mlp_hidden_dims with
    | none =>
      refine ⟨?w1, ?e1, ?s1⟩
      case e1 =>
        simp only [TabResnetModel.forward, TabResnet.build, hMs, Option.some_bind,
          hx0, hc, hm, dropoutEval, contLen, Nat.add_zero, Nat.zero_add, ite_self]
        exact rfl
      case s1 =>
        simp only [TabResnet.build, hc, hm, contLen, Nat.add_zero, Nat.zero_add,
          ite_self]
        exact hdsh
    | some hidden =>
      cases hidden with
      | nil =>
        refine ⟨?w2, ?e2, ?s2⟩
        case e2 =>
          simp only [TabResnetModel.forward, TabResnet.build, hMs, Option.some_bind,
            hx0, hc, hm, dropoutEval, contLen, Nat.add_zero, Nat.zero_add, ite_self]
          exact rfl
        case s2 =>
          simp only [TabResnet.build, hc, hm, contLen, Nat.add_zero, Nat.zero_add,
            ite_self, List.getLastD_cons, List.getLastD_nil]
          exact hdsh
      | cons h0 hrest =>
        refine ⟨?w3, ?e3, ?s3⟩
        case e3 =>
          simp only [TabResnetModel.forward, TabResnet.build, hMs, Option.some_bind,
            hx0, hc, hm, dropoutEval, contLen, Nat.add_zero, Nat.zero_add, ite_self]
          exact rfl
        case s3 =>
          simp only [TabResnet.build, hc, hm, contLen, Nat.add_zero, Nat.zero_add,
            ite_self]
          exact mlp_wrap_shape (cfg.blocks_dims.getLastD 0) h0 hrest cfg.mlp_act θ
            hdsh.1
  | some cols =>
    have hidxex : ∀ o ∈ cols.map (assocFind cfg.column_idx), ∃ a, o = some a ∧ a < w := by
      intro o ho
      rcases List.mem_map.mp ho with ⟨c, hcmem, rfl⟩
      exact hcont cols hc c hcmem
    rcases seqOpt_forall hidxex with ⟨idxs, hidxs, hidxlen, hbound⟩
    have hxcrows : ∀ o ∈ X.map (fun (row : Vec) =>
        seqOpt (idxs.map (fun i => row.get? i))),
        ∃ v, o = some v ∧ v.length = cols.length := by
      intro o ho
      rcases List.mem_map.mp ho with ⟨row, hrow, rfl⟩
      have hin : ∀ o2 ∈ idxs.map (fun i => row.get? i), ∃ q, o2 = some q := by
        intro o2 ho2
        rcases List.mem_map.mp ho2 with ⟨i, hi, rfl⟩
        have hlt : i < row.length := by
          rw [hX.2 row hrow]
          exact hbound i hi
        have hs := (get?_isSome_iff row i).mpr hlt
        rcases hg : row.get? i with _ | q
        · rw [hg] at hs; simp at hs
        · exact ⟨q, rfl⟩
      rcases seqOpt_lengths hin with ⟨l2, hl2, hlen2⟩
      refine ⟨l2, hl2, ?_⟩
      rw [hlen2, List.length_map, hidxlen, List.length_map]
    rcases seqOpt_shape hxcrows with ⟨xc0, hxc0, hxc0len, hxc0all⟩
    have hxc0sh : Mat.hasShape xc0 n cols.length :=
      ⟨by rw [hxc0len, List.length_map, hX.1], hxc0all⟩
    by_cases hbn : cfg.batchnorm_cont = true
    · by_cases hcf : cfg.concat_cont_first = true
      · have hXCsh := map_bn_shape θ hxc0sh
        have hzc := zipCat_shape hx0sh hXCsh
        have hdeq := mkDenseResnet_getD
          ((cfg.embed_input.map (fun e => e.2.2)).sum + cols.length)
          cfg.blocks_dims cfg.blocks_dropout θ hne
        have hdsh := mkDenseResnet_forward_shape
          ((cfg.embed_input.map (fun e => e.2.2)).sum + cols.length)
          cfg.blocks_dims cfg.blocks_dropout θ _ hdeq
          (zipCat x0 (xc0.map (mkBatchNorm cols.length θ).forward1)) n hzc
        cases hm : cfg.mlp_hidden_dims with
        | none =>
          refine ⟨?w4, ?e4, ?s4⟩
          case e4 =>
            simp only [TabResnetModel.forward, TabResnet.build, hMs, Option.some_bind,
              hx0, hc, hidxs, hxc0, hbn, hcf, hm, dropoutEval, contLen, ite_self]
            exact rfl
          case s4 =>
            simp only [TabResnet.build, hc, hm, hcf, contLen, ite_self]
            exact hdsh
        | some hidden =>
          cases hidden with
          | nil =>
            refine ⟨?w5, ?e5, ?s5⟩
            case e5 =>
              simp only [TabResnetModel.forward, TabResnet.build, hMs, Option.some_bind,
                hx0, hc, hidxs, hxc0, hbn, hcf, hm, dropoutEval, contLen, ite_self]
              exact rfl
            case s5 =>
              simp only [TabResnet.build, hc, hm, hcf, contLen, ite_self,
                List.getLastD_cons, List.getLastD_nil]
              exact hdsh
          | cons h0 hrest =>
            refine ⟨?w6, ?e6, ?s6⟩
            case e6 =>
              simp only [TabResnetModel.forward, TabResnet.build, hMs, Option.some_bind,
                hx0, hc, hidxs, hxc0, hbn, hcf, hm, dropoutEval, contLen, ite_self]
              exact rfl
            case s6 =>
              simp only [TabResnet.build, hc, hm, hcf, contLen, ite_self]
              exact mlp_wrap_shape (cfg.blocks_dims.getLastD 0) h0 hrest
                cfg.mlp_act θ hdsh.1
      · have hcff : cfg.concat_cont_first = false := by simpa using hcf
        have hXCsh := map_bn_shape θ hxc0sh
        have hdeq := mkDenseResnet_getD ((cfg.embed_input.map (fun e => e.2.2)).sum)
          cfg.blocks_dims cfg.blocks_dropout θ hne
        have hdsh := mkDenseResnet_forward_shape
          ((cfg.embed_input.map (fun e => e.2.2)).sum)
          cfg.blocks_dims cfg.blocks_dropout θ _ hdeq x0 n hx0sh
        have hout := zipCat_shape hdsh hXCsh
        have hout2 : Mat.hasShape
            (zipCat (((mkDenseResnet ((cfg.embed_input.map (fun e => e.2.2)).sum)
              cfg.blocks_dims cfg.blocks_dropout θ).getD
              { head := none, blocks := [] }).forward x0)
              (xc0.map (mkBatchNorm cols.length θ).forward1)) n
            (cols.length + cfg.blocks_dims.getLastD 0) := by
          rw [Nat.add_comm cols.length (cfg.blocks_dims.getLastD 0)]
          exact hout
        cases hm : cfg.mlp_hidden_dims with
        | none =>
          refine ⟨?w7, ?e7, ?s7⟩
          case e7 =>
            simp only [TabResnetModel.forward, TabResnet.build, hMs, Option.some_bind,
              hx0, hc, hidxs, hxc0, hbn, hcff, hm, dropoutEval, contLen, ite_self,
              Bool.false_eq_true, if_false]
            exact rfl
          case s7 =>
            simp only [TabResnet.build, hc, hm, hcff, contLen, ite_self,
              Bool.false_eq_true, if_false]
            exact hout2
        | some hidden =>
          cases hidden with
          | nil =>
            refine ⟨?w8, ?e8, ?s8⟩
            case e8 =>
              simp only [TabResnetModel.forward, TabResnet.build, hMs, Option.some_bind,
                hx0, hc, hidxs, hxc0, hbn, hcff, hm, dropoutEval, contLen, ite_self,
                Bool.false_eq_true, if_false]
              exact rfl
            case s8 =>
              simp only [TabResnet.build, hc, hm, hcff, contLen, ite_self,
                Bool.false_eq_true, if_false, List.getLastD_cons, List.getLastD_nil]
              exact hout2
          | cons h0 hrest =>
            refine ⟨?w9, ?e9, ?s9⟩
            case e9 =>
              simp only [TabResnetModel.forward, TabResnet.build, hMs, Option.some_bind,
                hx0, hc, hidxs, hxc0, hbn, hcff, hm, dropoutEval, contLen, ite_self,
                Bool.false_eq_true, if_false]
              exact rfl
            case s9 =>
              simp only [TabResnet.build, hc, hm, hcff, contLen, ite_self,
                Bool.false_eq_true, if_false]
              exact mlp_wrap_shape (cols.length + cfg.blocks_dims.getLastD 0) h0 hrest
                cfg.mlp_act θ hout.1
    · have hbnf : cfg.batchnorm_cont = false := by simpa using hbn
      by_cases hcf : cfg.concat_cont_first = true
      · have hzc := zipCat_shape hx0sh hxc0sh
        have hdeq := mkDenseResnet_getD
          ((cfg.embed_input.map (fun e => e.2.2)).sum + cols.length)
          cfg.blocks_dims cfg.blocks_dropout θ hne
        have hdsh := mkDenseResnet_forward_shape
          ((cfg.embed_input.map (fun e => e.2.2)).sum + cols.length)
          cfg.blocks_dims cfg.blocks_dropout θ _ hdeq (zipCat x0 xc0) n hzc
        cases hm : cfg.mlp_hidden_dims with
        | none =>
          refine ⟨?w10, ?e10, ?s10⟩
          case e10 =>
            simp only [TabResnetModel.forward, TabResnet.build, hMs, Option.some_bind,
              hx0, hc, hidxs, hxc0, hbnf, hcf, hm, dropoutEval, contLen, ite_self,
              Bool.false_eq_true, if_false]
            exact rfl
          case s10 =>
            simp only [TabResnet.build, hc, hm, hcf, contLen, ite_self]
            exact hdsh
        | some hidden =>
          cases hidden with
          | nil =>
            refine ⟨?w11, ?e11, ?s11⟩
            case e11 =>
              simp only [TabResnetModel.forward, TabResnet.build, hMs, Option.some_bind,
                hx0, hc, hidxs, hxc0, hbnf, hcf, hm, dropoutEval, contLen, ite_self,
                Bool.false_eq_true, if_false]
              exact rfl
            case s11 =>
              simp only [TabResnet.build, hc, hm, hcf, contLen, ite_self,
                List.getLastD_cons, List.getLastD_nil]
              exact hdsh
          | cons h0 hrest =>
            refine ⟨?w12, ?e12, ?s12⟩
            case e12 =>
              simp only [TabResnetModel.forward, TabResnet.build, hMs, Option.some_bind,
                hx0, hc, hidxs, hxc0, hbnf, hcf, hm, dropoutEval, contLen, ite_self,
                Bool.false_eq_true, if_false]
              exact rfl
            case s12 =>
              simp only [TabResnet.build, hc, hm, hcf, contLen, ite_self]
              exact mlp_wrap_shape (cfg.blocks_dims.getLastD 0) h0 hrest
                cfg.mlp_act θ hdsh.1
      · have hcff : cfg.concat_cont_first = false := by simpa using hcf
        have hdeq := mkDenseResnet_getD ((cfg.embed_input.map (fun e => e.2.2)).sum)
          cfg.blocks_dims cfg.blocks_dropout θ hne
        have hdsh := mkDenseResnet_forward_shape
          ((cfg.embed_input.map (fun e => e.2.2)).sum)
          cfg.blocks_dims cfg.blocks_dropout θ _ hdeq x0 n hx0sh
        have hout := zipCat_shape hdsh hxc0sh
        have hout2 : Mat.hasShape
            (zipCat (((mkDenseResnet ((cfg.embed_input.map (fun e => e.2.2)).sum)
              cfg.blocks_dims cfg.blocks_dropout θ).getD
              { head := none, blocks := [] }).forward x0) xc0) n
            (cols.length + cfg.blocks_dims.getLastD 0) := by
          rw [Nat.add_comm cols.length (cfg.blocks_dims.getLastD 0)]
          exact hout
        cases hm : cfg.mlp_hidden_dims with
        | none =>
          refine ⟨?w13, ?e13, ?s13⟩
          case e13 =>
            simp only [TabResnetModel.forward, TabResnet.build, hMs, Option.some_bind,
              hx0, hc, hidxs, hxc0, hbnf, hcff, hm, dropoutEval, contLen, ite_self,
              Bool.false_eq_true, if_false]
            exact rfl
          case s13 =>
            simp only [TabResnet.build, hc, hm, hcff, contLen, ite_self,
              Bool.false_eq_true, if_false]
            exact hout2
        | some hidden =>
          cases hidden with
          | nil =>
            refine ⟨?w14, ?e14, ?s14⟩
            case e14 =>
              simp only [TabResnetModel.forward, TabResnet.build, hMs, Option.some_bind,
                hx0, hc, hidxs, hxc0, hbnf, hcff, hm, dropoutEval, contLen, ite_self,
                Bool.false_eq_true, if_false]
              exact rfl
            case s14 =>
              simp only [TabResnet.build, hc, hm, hcff, contLen, ite_self,
                Bool.false_eq_true, if_false, List.getLastD_cons, List.getLastD_nil]
              exact hout2
          | cons h0 hrest =>
            refine ⟨?w15, ?e15, ?s15⟩
            case e15 =>
              simp only [TabResnetModel.forward, TabResnet.build, hMs, Option.some_bind,
                hx0, hc, hidxs, hxc0, hbnf, hcff, hm, dropoutEval, contLen, ite_self,
                Bool.false_eq_true, if_false]
              exact rfl
            case s15 =>
              simp only [TabResnet.build, hc, hm, hcff, contLen, ite_self,
                Bool.false_eq_true, if_false]
              exact mlp_wrap_shape (cols.length + cfg.blocks_dims.getLastD 0) h0 hrest
                cfg.mlp_act θ hout.1

/-- C3: constructing TabResnet raises the ValueError exactly when
blocks_dims has fewer than two elements; the check runs before any layer
of the model is built, and every blocks_dims with at least two elements
passes it. -/
theorem tabresnet_blocks_check_c3 (cfg : TabResnetCfg) (θ : Init) :
    TabResnet.init cfg θ =
      .error (.valueError "blocks must contain at least two elements") ↔
    cfg.blocks_dims.length < 2 := by
  unfold TabResnet.init
  by_cases h : cfg.blocks_dims.length < 2
  · simp [h]
  · simp [h]

/-- C4 counterexample: at input_dim = 0 and n_heads = 0 the divisibility
relation holds (0 divides 0), yet construction does not proceed: the
Python expression input_dim % n_heads raises ZeroDivisionError, which is
not an AssertionError, so the claimed equivalence fails as stated. -/
theorem qk_divisibility_c4_counterexample :
    (0 : ℕ) ∣ 0 ∧
    mkQKSelfAttention 0 false 0 id 0 witInit = .error .zeroDivisionError :=
  ⟨dvd_refl 0, rfl⟩

/-- C4 amended: for every input_dim and every positive n_heads,
construction fails with the assertion error exactly when n_heads does not
divide input_dim; when it does divide, construction proceeds and head_dim
is input_dim divided by n_heads.  (When n_heads is zero, construction
always fails, with ZeroDivisionError.) -/
theorem qk_divisibility_c4 (input_dim : ℕ) (use_bias : Bool) (n_heads : ℕ)
    (expF : ℚ → ℚ) (inv : ℚ) (θ : Init) (hpos : 0 < n_heads) :
    ((mkQKSelfAttention input_dim use_bias n_heads expF inv θ =
      .error (.assertionError "input_dim must be divisible by n_heads")) ↔
      ¬(n_heads ∣ input_dim)) ∧
    (n_heads ∣ input_dim →
      mkQKSelfAttention input_dim use_bias n_heads expF inv θ =
        .ok (buildQK input_dim use_bias n_heads expF inv θ) ∧
      (buildQK input_dim use_bias n_heads expF inv θ).head_dim =
        input_dim / n_heads) := by
  have hz : ¬n_heads = 0 := by omega
  constructor
  · unfold mkQKSelfAttention
    rw [if_neg hz]
    by_cases hd : input_dim % n_heads = 0
    · rw [if_neg (by simpa using hd)]
      simp [Nat.dvd_of_mod_eq_zero hd]
    · rw [if_pos (by simpa using hd)]
      simp only [true_iff]
      intro hdvd
      exact hd (Nat.mod_eq_zero_of_dvd hdvd)
  · intro hdvd
    refine ⟨?_, rfl⟩
    unfold mkQKSelfAttention
    rw [if_neg hz, if_neg (by simp [Nat.mod_eq_zero_of_dvd hdvd])]

theorem qk_divisibility_c4_witness :
    ((mkQKSelfAttention 8 false 2 id 0 witInit =
      .error (.assertionError "input_dim must be divisible by n_heads")) ↔
      ¬((2 : ℕ) ∣ 8)) ∧
    ((2 : ℕ) ∣ 8 →
      mkQKSelfAttention 8 false 2 id 0 witInit =
        .ok (buildQK 8 false 2 id 0 witInit) ∧
      (buildQK 8 false 2 id 0 witInit).head_dim = 8 / 2) :=
  qk_divisibility_c4 8 false 2 id 0 witInit (by decide)

/-- C5: TabTransformer construction raises the ValueError exactly when
there is at least one continuous column, no categorical column, and
embed_continuous is false; every other configuration passes this check. -/
theorem tabtransformer_cont_check_c5 (cfg : TabTransformerCfg)
    (funs : EmbedFuns) (expF actF : ℚ → ℚ) (inv : ℚ) (θ : Init) :
    TabTransformer.init cfg funs expF actF inv θ =
      .error (.valueError
        "If only continuous features are used embed_continuous must be set to True") ↔
    (0 < nContOf cfg ∧ nCatOf cfg = 0 ∧ ¬cfg.embed_continuous) := by
  unfold TabTransformer.init
  by_cases h : 0 < nContOf cfg ∧ nCatOf cfg = 0 ∧ ¬cfg.embed_continuous
  · simp [h]
  · simp only [h, if_false, iff_false]
    by_cases h2 : 0 < cfg.n_heads ∧ cfg.input_dim % cfg.n_heads = 0
    · rw [if_neg (not_not_intro h2)]
      simp
    · rw [if_pos h2]
      simp

/-- C6: BasicBlock.forward returns the leaky relu of the sum of the
transformed path (linear, batch norm, leaky relu, optional dropout,
linear, batch norm) and the identity path (the input itself, or the
resized input when a resize module was supplied). -/
theorem basicblock_residual_c6 (blk : BasicBlock) (x : Vec) :
    blk.forward1 x =
      (List.zipWith (· + ·) (blk.transform x) (blk.identityPath x)).map
        leakyReluQ := rfl

/-- C7: for a valid QueryKeySelfAttention (positive head count dividing
input_dim), construction succeeds and forward maps a (batch, seq,
input_dim) tensor to a tensor of the same shape: the rearrangement into
heads and its inverse round-trip to the original width. -/
theorem qk_attention_shape_c7 (input_dim : ℕ) (use_bias : Bool)
    (n_heads : ℕ) (expF : ℚ → ℚ) (inv : ℚ) (θ : Init) (X : Mat3) (b s : ℕ)
    (hpos : 0 < n_heads) (hdvd : n_heads ∣ input_dim)
    (hX : Mat3.hasShape X b s input_dim) :
    mkQKSelfAttention input_dim use_bias n_heads expF inv θ =
      .ok (buildQK input_dim use_bias n_heads expF inv θ) ∧
    Mat3.hasShape ((buildQK input_dim use_bias n_heads expF inv θ).forward X)
      b s input_dim := by
  constructor
  · unfold mkQKSelfAttention
    rw [if_neg (by omega), if_neg (by simp [Nat.mod_eq_zero_of_dvd hdvd])]
  · constructor
    · simp [QKSelfAttention.forward, hX.1]
    · intro mb hmb
      rcases List.mem_map.mp hmb with ⟨xb, hxb, rfl⟩
      exact buildQK_forwardB_shape input_dim use_bias n_heads expF inv θ
        hpos hdvd (hX.2 xb hxb)

theorem qk_attention_shape_c7_witness :
    mkQKSelfAttention 2 false 1 id 0 witInit =
      .ok (buildQK 2 false 1 id 0 witInit) ∧
    Mat3.hasShape ((buildQK 2 false 1 id 0 witInit).forward [[[1, 2]]]) 1 1 2 :=
  qk_attention_shape_c7 2 false 1 id 0 witInit [[[1, 2]]] 1 1 (by decide)
    (by decide) (by decide)

/-- C8: ContextAttention.forward returns the attention-weighted
combination of the input: when sum_along_seq is true, the weighted input
summed along the sequence dimension, of shape (batch, input_dim); when
false, the elementwise weighted input itself, of shape
(batch, seq, input_dim). -/
theorem contextattention_forward_c8 (d : ℕ) (flag : Bool)
    (tanhF expF : ℚ → ℚ) (θ : Init) (X : Mat3) (b s : ℕ)
    (hX : Mat3.hasShape X b s d) :
    (flag = true →
      (mkContextAttention d flag tanhF expF θ).forward X =
        .mat2 (((mkContextAttention d flag tanhF expF θ).weighted X).map
          (sumRows d)) ∧
      Mat.hasShape (((mkContextAttention d flag tanhF expF θ).weighted X).map
        (sumRows d)) b d) ∧
    (flag = false →
      (mkContextAttention d flag tanhF expF θ).forward X =
        .mat3 ((mkContextAttention d flag tanhF expF θ).weighted X) ∧
      Mat3.hasShape ((mkContextAttention d flag tanhF expF θ).weighted X)
        b s d) := by
  have hw := mkContextAttention_weighted_shape d flag tanhF expF θ hX
  constructor
  · intro hf
    constructor
    · simp only [ContextAttention.forward, mkContextAttention_inputDim]
      rw [if_pos]
      simp only [mkContextAttention, hf]
    · constructor
      · simp [hw.1]
      · intro r hr
        rcases List.mem_map.mp hr with ⟨mb, hmb, rfl⟩
        exact sumRows_length (hw.2 mb hmb).2
  · intro hf
    refine ⟨?_, hw⟩
    simp only [ContextAttention.forward, mkContextAttention_inputDim]
    rw [if_neg]
    simp only [mkContextAttention, hf]
    simp

theorem contextattention_forward_c8_witness :
    (mkContextAttention 2 true id id witInit).forward [[[1, 2]]] =
      .mat2 (((mkContextAttention 2 true id id witInit).weighted [[[1, 2]]]).map
        (sumRows 2)) ∧
    Mat.hasShape (((mkContextAttention 2 true id id witInit).weighted
      [[[1, 2]]]).map (sumRows 2)) 1 2 :=
  (contextattention_forward_c8 2 true id id witInit [[[1, 2]]] 1 1
    (by decide)).1 rfl

lemma buildBlocks_length (drop : ℚ) (θ : Init) :
    ∀ l : List ℕ, (buildBlocks drop θ l).length = l.length - 1 := by
  intro l
  induction l with
  | nil => simp [buildBlocks]
  | cons d0 rest ih =>
    cases rest with
    | nil => simp [buildBlocks]
    | cons d1 rs =>
      have := ih
      simp only [buildBlocks, List.length_cons] at this ⊢
      omega

lemma buildBlocks_get? (drop : ℚ) (θ : Init) :
    ∀ (l : List ℕ) (i : ℕ), i + 1 < l.length →
      (buildBlocks drop θ l).get? i =
        some (mkBasicBlock (l.getD i 0) (l.getD (i + 1) 0) drop
          (if l.getD i 0 ≠ l.getD (i + 1) 0 then
            some (mkLinear (l.getD i 0) (l.getD (i + 1) 0) true θ,
              mkBatchNorm (l.getD (i + 1) 0) θ)
           else none) θ) := by
  intro l
  induction l with
  | nil => intro i hi; simp at hi
  | cons d0 rest ih =>
    intro i hi
    cases rest with
    | nil => simp at hi
    | cons d1 rs =>
      cases i with
      | zero => simp [buildBlocks]
      | succ j =>
        have hj : j + 1 < (d1 :: rs).length := by
          simp only [List.length_cons] at hi ⊢
          omega
        have := ih j hj
        simpa [buildBlocks, List.getD_cons_succ] using this

/-- C9: DenseResnet performs no validation of blocks_dims: for every
nonempty blocks_dims it builds exactly length - 1 BasicBlocks, block i
mapping blocks_dims[i] to blocks_dims[i+1] with a resize module exactly
when those widths differ, and a direct construction with a single-element
blocks_dims equal to input_dim succeeds with no blocks at all, the
forward pass returning its input unchanged. -/
theorem denseresnet_no_validation_c9 (input_dim : ℕ) (dims : List ℕ)
    (drop : ℚ) (θ : Init) (d0 : ℕ) (rest : List ℕ) (hd : dims = d0 :: rest) :
    ∃ dr, mkDenseResnet input_dim dims drop θ = some dr ∧
      dr.blocks.length = dims.length - 1 ∧
      (∀ i, i + 1 < dims.length →
        dr.blocks.get? i =
          some (mkBasicBlock (dims.getD i 0) (dims.getD (i + 1) 0) drop
            (if dims.getD i 0 ≠ dims.getD (i + 1) 0 then
              some (mkLinear (dims.getD i 0) (dims.getD (i + 1) 0) true θ,
                mkBatchNorm (dims.getD (i + 1) 0) θ)
             else none) θ)) ∧
      (∀ i blk, dr.blocks.get? i = some blk →
        (blk.resize.isSome ↔ dims.getD i 0 ≠ dims.getD (i + 1) 0)) ∧
      (dims = [input_dim] →
        dr = { head := none, blocks := [] } ∧ ∀ X, dr.forward X = X) := by
  subst hd
  refine ⟨_, rfl, buildBlocks_length drop θ _, buildBlocks_get? drop θ _, ?_, ?_⟩
  · intro i blk hblk
    have hsome : (buildBlocks drop θ (d0 :: rest)).get? i = some blk := hblk
    have hlt : i < (buildBlocks drop θ (d0 :: rest)).length := by
      rw [← get?_isSome_iff, hsome]
      rfl
    rw [buildBlocks_length drop θ] at hlt
    have hbound : i + 1 < (d0 :: rest).length := by
      simp only [List.length_cons] at hlt ⊢
      omega
    rw [buildBlocks_get? drop θ _ i hbound] at hsome
    have hblk2 : blk = mkBasicBlock ((d0 :: rest).getD i 0)
        ((d0 :: rest).getD (i + 1) 0) drop
        (if (d0 :: rest).getD i 0 ≠ (d0 :: rest).getD (i + 1) 0 then
          some (mkLinear ((d0 :: rest).getD i 0) ((d0 :: rest).getD (i + 1) 0)
            true θ, mkBatchNorm ((d0 :: rest).getD (i + 1) 0) θ)
         else none) θ := by
      injection hsome with h
      exact h.symm
    subst hblk2
    by_cases hne : (d0 :: rest).getD i 0 ≠ (d0 :: rest).getD (i + 1) 0
    · simp [mkBasicBlock, hne]
    · simp [mkBasicBlock, hne]
  · intro hsingle
    have h1 : d0 = input_dim ∧ rest = [] := by
      injection hsingle with ha hb
      exact ⟨ha, hb⟩
    rcases h1 with ⟨rfl, rfl⟩
    constructor
    · simp [buildBlocks]
    · intro X
      simp [DenseResnet.forward, buildBlocks]

theorem denseresnet_no_validation_c9_witness :
    ∃ dr, mkDenseResnet 3 [3] 0 witInit = some dr ∧
      dr.blocks.length = ([3] : List ℕ).length - 1 ∧
      (∀ i, i + 1 < ([3] : List ℕ).length →
        dr.blocks.get? i =
          some (mkBasicBlock (([3] : List ℕ).getD i 0)
            (([3] : List ℕ).getD (i + 1) 0) 0
            (if ([3] : List ℕ).getD i 0 ≠ ([3] : List ℕ).getD (i + 1) 0 then
              some (mkLinear (([3] : List ℕ).getD i 0)
                (([3] : List ℕ).getD (i + 1) 0) true witInit,
                mkBatchNorm (([3] : List ℕ).getD (i + 1) 0) witInit)
             else none) witInit)) ∧
      (∀ i blk, dr.blocks.get? i = some blk →
        (blk.resize.isSome ↔
          ([3] : List ℕ).getD i 0 ≠ ([3] : List ℕ).getD (i + 1) 0)) ∧
      (([3] : List ℕ) = [3] →
        dr = { head := none, blocks := [] } ∧ ∀ X, dr.forward X = X) :=
  denseresnet_no_validation_c9 3 [3] 0 witInit 3 [] rfl

/-- C10: every categorical embedding layer built by TabResnet for a
column with val unique values allocates val + 1 rows; index 0 is the
padding index whose vector is the (frozen) zero vector, so an input code
of 0 maps to the zero vector, and exactly the codes 0 through val are
accepted. -/
theorem tabresnet_embedding_rows_c10 (cfg : TabResnetCfg) (θ : Init)
    (e : String × ℕ × ℕ) (he : e ∈ cfg.embed_input) :
    (e.1, mkEmbeddingPad0 (e.2.1 + 1) e.2.2 θ) ∈
      (TabResnet.build cfg θ).embed_layers ∧
    (mkEmbeddingPad0 (e.2.1 + 1) e.2.2 θ).weight.length = e.2.1 + 1 ∧
    (mkEmbeddingPad0 (e.2.1 + 1) e.2.2 θ).lookup 0 = some (zeroVec e.2.2) ∧
    (∀ i : ℤ, ((mkEmbeddingPad0 (e.2.1 + 1) e.2.2 θ).lookup i).isSome ↔
      0 ≤ i ∧ i.toNat < e.2.1 + 1) := by
  refine ⟨?_, mkEmbeddingPad0_weight_length _ _ _,
    mkEmbeddingPad0_lookup_zero _ _ _ (by omega),
    fun i => mkEmbeddingPad0_lookup_isSome _ _ _ i⟩
  simp only [TabResnet.build]
  exact List.mem_map.mpr ⟨e, he, rfl⟩

theorem tabresnet_embedding_rows_c10_witness :
    (("a", mkEmbeddingPad0 (4 + 1) 3 witInit) ∈
      (TabResnet.build witResnetCfg witInit).embed_layers) ∧
    (mkEmbeddingPad0 (4 + 1) 3 witInit).weight.length = 4 + 1 ∧
    (mkEmbeddingPad0 (4 + 1) 3 witInit).lookup 0 = some (zeroVec 3) ∧
    (∀ i : ℤ, ((mkEmbeddingPad0 (4 + 1) 3 witInit).lookup i).isSome ↔
      0 ≤ i ∧ i.toNat < 4 + 1) :=
  tabresnet_embedding_rows_c10 witResnetCfg witInit ("a", 4, 3) (by decide)

/-- C1: for every valid TabResnet configuration (at least two block
dimensions, nonempty categorical embedding input with distinct column
names, all referenced columns present in the input and category codes in
range) and every two-dimensional input with n rows, construction succeeds
and forward returns a tensor of shape (n, output_dim), where output_dim
is the last MLP dimension when an MLP is configured, otherwise the last
block dimension when concat_cont_first is true, otherwise the number of
continuous columns plus the last block dimension. -/
theorem tabresnet_forward_shape_c1 (cfg : TabResnetCfg) (θ : Init)
    (X : Mat) (n w : ℕ)
    (hlen : 2 ≤ cfg.blocks_dims.length)
    (hemb : cfg.embed_input ≠ [])
    (hnd : (cfg.embed_input.map (fun e => e.1)).Nodup)
    (hX : Mat.hasShape X n w)
    (hcols : ∀ e ∈ cfg.embed_input, ∃ idx,
        assocFind cfg.column_idx e.1 = some idx ∧ idx < w ∧
        ∀ row ∈ X, 0 ≤ longOf (row.getD idx 0) ∧
          (longOf (row.getD idx 0)).toNat < e.2.1 + 1)
    (hcont : ∀ cols, cfg.continuous_cols = some cols → ∀ c ∈ cols,
        ∃ idx, assocFind cfg.column_idx c = some idx ∧ idx < w)
    (hmlp : ∀ l, cfg.mlp_hidden_dims = some l → l ≠ []) :
    TabResnet.init cfg θ = .ok (TabResnet.build cfg θ) ∧
    (TabResnet.build cfg θ).output_dim =
      (match cfg.mlp_hidden_dims with
       | some hidden => hidden.getLastD 0
       | none =>
         if cfg.concat_cont_first then cfg.blocks_dims.getLastD 0
         else contLen cfg.continuous_cols + cfg.blocks_dims.getLastD 0) ∧
    ∃ out, (TabResnet.build cfg θ).forward X = some out ∧
      Mat.hasShape out n (TabResnet.build cfg θ).output_dim := by
  refine ⟨?_, ?_,
    tabResnet_build_forward_shape cfg θ X n w hlen hemb hnd hX hcols hcont⟩
  · unfold TabResnet.init
    rw [if_neg (by omega)]
  · cases hm : cfg.mlp_hidden_dims with
    | none => simp [TabResnet.build, hm]
    | some hidden =>
      have hne := hmlp hidden hm
      simp only [TabResnet.build, hm]
      rw [List.getLastD_cons]
      exact getLastD_irrel hne _ _

theorem tabresnet_forward_shape_c1_witness :
    TabResnet.init witResnetCfg witInit =
      .ok (TabResnet.build witResnetCfg witInit) ∧
    (TabResnet.build witResnetCfg witInit).output_dim =
      (match witResnetCfg.mlp_hidden_dims with
       | some hidden => hidden.getLastD 0
       | none =>
         if witResnetCfg.concat_cont_first then
           witResnetCfg.blocks_dims.getLastD 0
         else contLen witResnetCfg.continuous_cols +
           witResnetCfg.blocks_dims.getLastD 0) ∧
    ∃ out, (TabResnet.build witResnetCfg witInit).forward witX = some out ∧
      Mat.hasShape out 3 (TabResnet.build witResnetCfg witInit).output_dim :=
  tabresnet_forward_shape_c1 witResnetCfg witInit witX 3 4 (by decide)
    (by decide) (by decide) (by decide)
    (by
      intro e he
      fin_cases he
      · exact ⟨0, by decide, by decide, by decide⟩
      · exact ⟨1, by decide, by decide, by decide⟩)
    (by
      intro cols hcc
      have h2 : cols = ["e", "f"] := by
        have h3 : (some ["e", "f"] : Option (List String)) = some cols := hcc
        injection h3 with h4
        exact h4.symm
      subst h2
      intro c hcm
      fin_cases hcm
      · exact ⟨2, by decide, by decide⟩
      · exact ⟨3, by decide, by decide⟩)
    (by
      intro l hl
      have h2 : l = [10, 7] := by
        have h3 : (some [10, 7] : Option (List ℕ)) = some l := hl
        injection h3 with h4
        exact h4.symm
      subst h2
      decide)

/-- C2: for every valid TabTransformer configuration (passing both
construction checks, with a usable column layout) and every input with N
rows, construction succeeds, the representation fed to the final MLP has
width equal to _compute_attn_output_dim, and forward returns a tensor of
shape (N, output_dim) with output_dim the last element of the final MLP
dimension list. -/
theorem tabtransformer_forward_shape_c2 (cfg : TabTransformerCfg)
    (funs : EmbedFuns) (expF actF : ℚ → ℚ) (inv : ℚ) (θ : Init) (X : Mat)
    (hval : ¬(0 < nContOf cfg ∧ nCatOf cfg = 0 ∧ ¬cfg.embed_continuous))
    (hheads : 0 < cfg.n_heads ∧ cfg.input_dim % cfg.n_heads = 0)
    (hcat : cfg.embed_continuous = true ∨ 1 ≤ nCatOf cfg)
    (hcls : (assocFind cfg.column_idx "cls_token").isSome = true →
      1 ≤ nCatOf cfg) :
    TabTransformer.init cfg funs expF actF inv θ =
      .ok (TabTransformer.build cfg funs expF actF inv θ) ∧
    (∀ hidden, cfg.mlp_hidden_dims = some hidden → hidden ≠ [] →
      (TabTransformer.build cfg funs expF actF inv θ).output_dim =
        hidden.getLastD 0) ∧
    ∃ y, (TabTransformer.build cfg funs expF actF inv θ).preMlp X = some y ∧
      Mat.hasShape y X.length
        (computeAttnOutputDim (assocFind cfg.column_idx "cls_token").isSome
          cfg.embed_continuous (nCatOf cfg) (nContOf cfg) cfg.input_dim) ∧
      ∃ out,
        (TabTransformer.build cfg funs expF actF inv θ).forward X = some out ∧
        Mat.hasShape out X.length
          (TabTransformer.build cfg funs expF actF inv θ).output_dim := by
  have hdvd : cfg.n_heads ∣ cfg.input_dim := Nat.dvd_of_mod_eq_zero hheads.2
  have hblk : ∀ blk ∈
      (TabTransformer.build cfg funs expF actF inv θ).transformer_blks,
      ∀ (xb : Mat) (s : ℕ),
        Mat.hasShape xb s (TabTransformer.build cfg funs expF actF inv θ).input_dim →
        Mat.hasShape (blk.forwardB xb) s
          (TabTransformer.build cfg funs expF actF inv θ).input_dim := by
    intro blk hb xb s hx
    have hb2 : blk ∈ (List.range cfg.n_blocks).map (fun _ =>
        mkTransformerEncoderBlk cfg.input_dim cfg.n_heads cfg.use_qkv_bias
          expF actF inv θ) := hb
    rcases List.mem_map.mp hb2 with ⟨_, _, rfl⟩
    exact mkTransformerEncoderBlk_forwardB_shape cfg.input_dim cfg.n_heads
      cfg.use_qkv_bias expF actF inv θ hheads.1 hdvd hx
  rcases preMlp_shape (TabTransformer.build cfg funs expF actF inv θ) X
    hblk hcat hcls with ⟨y, hy, hysh⟩
  refine ⟨?_, ?_, y, hy, hysh, ?_⟩
  · unfold TabTransformer.init
    rw [if_neg hval, if_neg (not_not_intro hheads)]
  · intro hidden hh hne
    cases hidden with
    | nil => exact absurd rfl hne
    | cons h0 hr =>
      simp only [TabTransformer.build, hh]
      rw [List.getLastD_cons]
      exact getLastD_irrel (by simp) _ _
  · cases hmhd : cfg.mlp_hidden_dims with
    | none =>
      refine ⟨?w21, ?e21, ?s21⟩
      case e21 =>
        simp only [TabTransformerModel.forward, hy, Option.map_some']
        exact rfl
      case s21 =>
        simp only [TabTransformer.build, hmhd]
        exact mlp_wrap_shape
          (computeAttnOutputDim (assocFind cfg.column_idx "cls_token").isSome
            cfg.embed_continuous (nCatOf cfg) (nContOf cfg) cfg.input_dim)
          (computeAttnOutputDim (assocFind cfg.column_idx "cls_token").isSome
            cfg.embed_continuous (nCatOf cfg) (nContOf cfg) cfg.input_dim * 4)
          [computeAttnOutputDim (assocFind cfg.column_idx "cls_token").isSome
            cfg.embed_continuous (nCatOf cfg) (nContOf cfg) cfg.input_dim * 2]
          actF θ hysh.1
    | some hidden =>
      cases hidden with
      | nil =>
        refine ⟨?w22, ?e22, ?s22⟩
        case e22 =>
          simp only [TabTransformerModel.forward, hy, Option.map_some']
          exact rfl
        case s22 =>
          simp only [TabTransformer.build, hmhd]
          exact mlp_wrap_shape
            (computeAttnOutputDim (assocFind cfg.column_idx "cls_token").isSome
              cfg.embed_continuous (nCatOf cfg) (nContOf cfg) cfg.input_dim)
            (computeAttnOutputDim (assocFind cfg.column_idx "cls_token").isSome
              cfg.embed_continuous (nCatOf cfg) (nContOf cfg) cfg.input_dim * 4)
            [computeAttnOutputDim (assocFind cfg.column_idx "cls_token").isSome
              cfg.embed_continuous (nCatOf cfg) (nContOf cfg) cfg.input_dim * 2]
            actF θ hysh.1
      | cons h0 hr =>
        refine ⟨?w23, ?e23, ?s23⟩
        case e23 =>
          simp only [TabTransformerModel.forward, hy, Option.map_some']
          exact rfl
        case s23 =>
          simp only [TabTransformer.build, hmhd]
          exact mlp_wrap_shape
            (computeAttnOutputDim (assocFind cfg.column_idx "cls_token").isSome
              cfg.embed_continuous (nCatOf cfg) (nContOf cfg) cfg.input_dim)
            h0 hr actF θ hysh.1

theorem tabtransformer_forward_shape_c2_witness :
    TabTransformer.init witTransformerCfg witEmbedFuns id id 0 witInit =
      .ok (TabTransformer.build witTransformerCfg witEmbedFuns id id 0 witInit) ∧
    (∀ hidden, witTransformerCfg.mlp_hidden_dims = some hidden → hidden ≠ [] →
      (TabTransformer.build witTransformerCfg witEmbedFuns id id 0
        witInit).output_dim = hidden.getLastD 0) ∧
    ∃ y, (TabTransformer.build witTransformerCfg witEmbedFuns id id 0
        witInit).preMlp witXT = some y ∧
      Mat.hasShape y witXT.length
        (computeAttnOutputDim
          (assocFind witTransformerCfg.column_idx "cls_token").isSome
          witTransformerCfg.embed_continuous (nCatOf witTransformerCfg)
          (nContOf witTransformerCfg) witTransformerCfg.input_dim) ∧
      ∃ out, (TabTransformer.build witTransformerCfg witEmbedFuns id id 0
          witInit).forward witXT = some out ∧
        Mat.hasShape out witXT.length
          (TabTransformer.build witTransformerCfg witEmbedFuns id id 0
            witInit).output_dim :=
  tabtransformer_forward_shape_c2 witTransformerCfg witEmbedFuns id id 0
    witInit witXT (by decide) (by decide) (by decide) (by decide)
